import Mathlib

/-!
# Verification of the jumpboot-mcp resource registry and discovery layer

This development gives a shallow embedding of the core functions of the
jumpboot-mcp server (internal/manager/manager.go, internal/discovery,
internal/proxy) and proves the specified properties about them.

Conventions:
* Go maps guarded by the registry lock are modelled as association lists
  (`List (String × α)`); the lock-protected read/modify operations of the
  source become pure state-passing functions.
* Fallible Go functions returning `(T, error)` become `Except`-valued
  functions; distinct error messages of the source are modelled by the
  constructors of `MgrErr`.
* External effects (the OS kill syscall, directory removal, the network
  connect/handshake/fetch of the federation client) are modelled by boolean
  outcome parameters, so every code path of the source is reachable.
-/

namespace JumpbootMCP

/-- Error taxonomy of the manager, mirroring the distinct `fmt.Errorf`
messages of internal/manager/manager.go. -/
inductive MgrErr where
  | notFound
  | captureDisabled
  | killFailed
  | removeFailed
  deriving DecidableEq, Repr

/-! ## Association-list primitives modelling Go map operations -/

/-- Lookup in an association list; models `m[k]` on a Go map. -/
def alookup (k : String) : List (String × α) → Option α
  | [] => none
  | (k', v) :: rest => if k' = k then some v else alookup k rest

/-- Removal from an association list; models `delete(m, k)`. -/
def aerase (k : String) : List (String × α) → List (String × α)
  | [] => []
  | (k', v) :: rest => if k' = k then aerase k rest else (k', v) :: aerase k rest

theorem alookup_aerase_self (k : String) (l : List (String × α)) :
    alookup k (aerase k l) = none := by
  induction l with
  | nil => rfl
  | cons hd tl ih =>
    by_cases h : hd.1 = k
    · simpa [aerase, h] using ih
    · simpa [aerase, alookup, h] using ih

theorem alookup_filter_ne {p : String × α → Bool} (k : String)
    (l : List (String × α)) (h : ∀ v, p (k, v) = false) :
    alookup k (l.filter p) = none := by
  induction l with
  | nil => rfl
  | cons hd tl ih =>
    obtain ⟨k', v⟩ := hd
    by_cases hk : k' = k
    · subst hk
      simp [List.filter, h v, ih]
    · by_cases hp : p (k', v)
      · simp [List.filter, hp, alookup, hk, ih]
      · simp [List.filter, hp, ih]

/-! ## ManagedProcess and the bounded output buffer (manager.go) -/

/-- The mutable per-process state of `ManagedProcess` that the claims
mention: owning environment, capture flag, exit flag and the line buffer.
`maxLines` is the buffer capacity set at spawn time. -/
structure MProcess where
  envID : String
  captureOutput : Bool
  exited : Bool
  outputLines : List String
  maxLines : Nat
  deriving DecidableEq, Repr

/-- Capacity assigned by `SpawnProcess` (`maxLines: 1000`). -/
def defaultMaxLines : Nat := 1000

/-- One iteration of `ManagedProcess.captureOutput`: append the scanned
line, then keep only the last `maxLines` lines when the buffer overflows. -/
def appendLine (maxLines : Nat) (buf : List String) (line : String) :
    List String :=
  if maxLines < (buf ++ [line]).length then
    (buf ++ [line]).drop ((buf ++ [line]).length - maxLines)
  else buf ++ [line]

/-- The last `n` elements of a list. -/
def lastN (n : Nat) (l : List α) : List α := l.drop (l.length - n)

theorem appendLine_eq_lastN (maxLines : Nat) (buf : List String)
    (line : String) :
    appendLine maxLines buf line = lastN maxLines (buf ++ [line]) := by
  unfold appendLine lastN
  by_cases h : maxLines < (buf ++ [line]).length
  · rw [if_pos h]
  · rw [if_neg h]
    have h0 : (buf ++ [line]).length - maxLines = 0 := by omega
    rw [h0, List.drop_zero]

theorem lastN_length_le (n : Nat) (l : List α) : (lastN n l).length ≤ n := by
  unfold lastN
  simp only [List.length_drop]
  omega

theorem lastN_absorb (n : Nat) (xs ys : List α) :
    lastN n (lastN n xs ++ ys) = lastN n (xs ++ ys) := by
  unfold lastN
  by_cases h : n ≤ xs.length
  · have hk : xs.length - n ≤ xs.length := Nat.sub_le _ _
    rw [← List.drop_append_of_le_length hk, List.drop_drop]
    congr 1
    simp only [List.length_append, List.length_drop]
    omega
  · have h0 : xs.length - n = 0 := by omega
    simp [h0]

theorem foldl_appendLine (maxLines : Nat) (lines : List String)
    (buf : List String) :
    List.foldl (appendLine maxLines) (lastN maxLines buf) lines =
      lastN maxLines (buf ++ lines) := by
  induction lines generalizing buf with
  | nil => simp [lastN]
  | cons l ls ih =>
    rw [List.foldl_cons, appendLine_eq_lastN, lastN_absorb, ih (buf ++ [l]),
      List.append_assoc]
    rfl

theorem foldl_appendLine_nil (maxLines : Nat) (lines : List String) :
    List.foldl (appendLine maxLines) [] lines = lastN maxLines lines := by
  have h := foldl_appendLine maxLines lines []
  simpa [lastN] using h

/-- `GetProcessOutput`, restricted to one process record: fails when the
process was spawned without capture; `tailLines ≤ 0` or
`tailLines ≥ len` returns a copy of all lines, otherwise the last
`tailLines` lines. (`tailLines` is a Go `int`, hence `Int`.) -/
def getOutput (p : MProcess) (tailLines : Int) : Except MgrErr (List String) :=
  if p.captureOutput = false then Except.error MgrErr.captureDisabled
  else if tailLines ≤ 0 ∨ (p.outputLines.length : Int) ≤ tailLines then
    Except.ok p.outputLines
  else
    Except.ok (p.outputLines.drop (p.outputLines.length - tailLines.toNat))

/-! ## The Manager registry (manager.go) -/

/-- `ManagedEnvironment` metadata relevant to destruction. -/
structure MEnv where
  name : String
  workspaceDir : Option String
  rootDir : String
  deriving DecidableEq, Repr

/-- `ManagedREPL` metadata: the owning environment handle. -/
structure MREPL where
  envID : String
  deriving DecidableEq, Repr

/-- The lock-protected maps of `Manager`. -/
structure MState where
  environments : List (String × MEnv)
  replSessions : List (String × MREPL)
  spawnedProcesses : List (String × MProcess)
  deriving DecidableEq, Repr

/-- `GetEnvironment`: lookup under the read lock, `NotFound` when absent. -/
def getEnvironment (st : MState) (id : String) : Except MgrErr MEnv :=
  match alookup id st.environments with
  | some env => Except.ok env
  | none => Except.error MgrErr.notFound

/-- Result of `DestroyEnvironment`: the outcome, the registry afterwards,
the handles of processes that were sent a kill signal, and the handles of
REPL sessions that were closed. -/
structure DestroyResult where
  outcome : Except MgrErr Unit
  state : MState
  killed : List String
  closedSessions : List String
  deriving Repr

/-- The process handles `DestroyEnvironment`'s cascade sends a kill signal
to: owned by the environment and not yet exited. -/
def cascadeKilledIds (st : MState) (id : String) : List String :=
  (st.spawnedProcesses.filter
    (fun pr => pr.2.envID = id ∧ pr.2.exited = false)).map Prod.fst

/-- The session handles `DestroyEnvironment`'s cascade closes. -/
def cascadeClosedIds (st : MState) (id : String) : List String :=
  (st.replSessions.filter (fun r => r.2.envID = id)).map Prod.fst

/-- The process map after `DestroyEnvironment`'s cascade: every process
owned by the environment deregistered. -/
def procsAfterCascade (st : MState) (id : String) :
    List (String × MProcess) :=
  st.spawnedProcesses.filter (fun pr => ¬ pr.2.envID = id)

/-- The session map after `DestroyEnvironment`'s cascade. -/
def replsAfterCascade (st : MState) (id : String) : List (String × MREPL) :=
  st.replSessions.filter (fun r => ¬ r.2.envID = id)

/-- `DestroyEnvironment`: `NotFound` for an unknown handle; otherwise kill
(force, blocking) every not-yet-exited process owned by the environment
and deregister all its processes, close and deregister all its REPL
sessions, remove the workspace directory (failure ignored by the source)
and the root directory (`removeRootOk` models the `os.RemoveAll` outcome;
on failure the source returns early with children already deregistered but
the environment still present), and finally deregister the environment. -/
def destroyEnvironment (st : MState) (id : String) (removeRootOk : Bool) :
    DestroyResult :=
  match alookup id st.environments with
  | none => ⟨Except.error MgrErr.notFound, st, [], []⟩
  | some _ =>
    if removeRootOk then
      ⟨Except.ok (),
        ⟨aerase id st.environments, replsAfterCascade st id,
          procsAfterCascade st id⟩,
        cascadeKilledIds st id, cascadeClosedIds st id⟩
    else
      ⟨Except.error MgrErr.removeFailed,
        ⟨st.environments, replsAfterCascade st id, procsAfterCascade st id⟩,
        cascadeKilledIds st id, cascadeClosedIds st id⟩

/-- Result of `KillProcess`: the outcome, the registry afterwards, and
whether a kill signal was sent to the OS process. -/
structure KillResult where
  outcome : Except MgrErr Unit
  state : MState
  sentKill : Bool
  deriving Repr

/-- `KillProcess`: `NotFound` for an unknown handle; if the process already
exited, deregister without signalling; otherwise send the kill signal
(`osKillOk` models the `Process.Kill` outcome; on failure the handle stays
registered), wait for the monitor's completion signal, and deregister. -/
def killProcess (st : MState) (id : String) (osKillOk : Bool) : KillResult :=
  match alookup id st.spawnedProcesses with
  | none => ⟨Except.error MgrErr.notFound, st, false⟩
  | some p =>
    if p.exited then
      ⟨Except.ok (), { st with spawnedProcesses := aerase id st.spawnedProcesses },
        false⟩
    else if osKillOk then
      ⟨Except.ok (), { st with spawnedProcesses := aerase id st.spawnedProcesses },
        true⟩
    else
      ⟨Except.error MgrErr.killFailed, st, true⟩

/-! ## Claim theorems for the registry -/

/-- C1: if `DestroyEnvironment h` returns without error then
`GetEnvironment h` fails with `NotFound` and no process and no REPL
session owned by `h` remains in the registry maps; every owned process
that had not already exited was sent a (blocking) force-kill and every
owned session was closed before deregistration; for an unknown handle,
`DestroyEnvironment` fails with `NotFound` and leaves the registry
unchanged. -/
theorem destroyEnvironment_correct (st : MState) (h : String)
    (rmOk : Bool) :
    (alookup h st.environments = none →
      destroyEnvironment st h rmOk =
        ⟨Except.error MgrErr.notFound, st, [], []⟩) ∧
    (∀ st' killed closed,
      destroyEnvironment st h rmOk = ⟨Except.ok (), st', killed, closed⟩ →
      getEnvironment st' h = Except.error MgrErr.notFound ∧
      (∀ pid p, (pid, p) ∈ st'.spawnedProcesses → p.envID ≠ h) ∧
      (∀ rid r, (rid, r) ∈ st'.replSessions → r.envID ≠ h) ∧
      (∀ pid p, (pid, p) ∈ st.spawnedProcesses → p.envID = h →
        p.exited = false → pid ∈ killed) ∧
      (∀ rid r, (rid, r) ∈ st.replSessions → r.envID = h → rid ∈ closed)) := by
  constructor
  · intro h0
    simp [destroyEnvironment, h0]
  · intro st' killed closed heq
    unfold destroyEnvironment at heq
    split at heq
    · injection heq with h1
      exact Except.noConfusion h1
    · split at heq
      · injection heq with _ hst hkill hclosed
        subst hst; subst hkill; subst hclosed
        refine ⟨?_, ?_, ?_, ?_, ?_⟩
        · simp [getEnvironment, alookup_aerase_self]
        · intro pid p hmem
          have hmem' : (pid, p) ∈ st.spawnedProcesses.filter
              (fun pr => ¬ pr.2.envID = h) := hmem
          have hp := (List.mem_filter.mp hmem').2
          simpa using hp
        · intro rid r hmem
          have hmem' : (rid, r) ∈ st.replSessions.filter
              (fun rr => ¬ rr.2.envID = h) := hmem
          have hr := (List.mem_filter.mp hmem').2
          simpa using hr
        · intro pid p hmem hp1 hp2
          show pid ∈ (st.spawnedProcesses.filter
            (fun pr => pr.2.envID = h ∧ pr.2.exited = false)).map Prod.fst
          exact List.mem_map.mpr
            ⟨(pid, p), List.mem_filter.mpr ⟨hmem, by simp [hp1, hp2]⟩, rfl⟩
        · intro rid r hmem hr
          show rid ∈ (st.replSessions.filter
            (fun rr => rr.2.envID = h)).map Prod.fst
          exact List.mem_map.mpr
            ⟨(rid, r), List.mem_filter.mpr ⟨hmem, by simp [hr]⟩, rfl⟩
      · injection heq with h1
        exact Except.noConfusion h1

/-- Concrete registry used to exercise the registry theorems: two
environments, each owning one session and one process; the process of
`e1` is still running, the process of `e2` has exited. -/
def exampleMState : MState :=
  ⟨[("e1", ⟨"one", none, "/r1"⟩), ("e2", ⟨"two", some "/r2/ws", "/r2"⟩)],
   [("r1", ⟨"e1"⟩), ("r2", ⟨"e2"⟩)],
   [("p1", ⟨"e1", true, false, ["l1"], 1000⟩),
    ("p2", ⟨"e2", true, true, [], 1000⟩)]⟩

/-- Witness for C1 at `exampleMState`: destroying `e1` succeeds, after
which `e1` is not found, its process was kill-signalled, its session
closed, and destroying the unknown handle `zz` reports `NotFound` leaving
the state unchanged. -/
theorem destroyEnvironment_correct_witness :
    getEnvironment (destroyEnvironment exampleMState "e1" true).state "e1" =
      Except.error MgrErr.notFound ∧
    "p1" ∈ (destroyEnvironment exampleMState "e1" true).killed ∧
    "r1" ∈ (destroyEnvironment exampleMState "e1" true).closedSessions ∧
    destroyEnvironment exampleMState "zz" true =
      ⟨Except.error MgrErr.notFound, exampleMState, [], []⟩ := by
  have hmain := (destroyEnvironment_correct exampleMState "e1" true).2
    (destroyEnvironment exampleMState "e1" true).state
    (destroyEnvironment exampleMState "e1" true).killed
    (destroyEnvironment exampleMState "e1" true).closedSessions
    rfl
  have hnf := (destroyEnvironment_correct exampleMState "zz" true).1 rfl
  refine ⟨hmain.1, ?_, ?_, hnf⟩
  · exact hmain.2.2.2.1 "p1" ⟨"e1", true, false, ["l1"], 1000⟩
      (by decide) rfl rfl
  · exact hmain.2.2.2.2 "r1" ⟨"e1"⟩ (by decide) rfl

/-- C4: `KillProcess` on an unknown handle fails with `NotFound`; a
successful `KillProcess h` removes `h` from the process map so a second
call fails with `NotFound`; on a process that already exited it sends no
kill signal, only deregisters the handle, and returns success. -/
theorem killProcess_correct (st : MState) (h : String) (osOk : Bool) :
    (alookup h st.spawnedProcesses = none →
      killProcess st h osOk = ⟨Except.error MgrErr.notFound, st, false⟩) ∧
    (∀ st' sent, killProcess st h osOk = ⟨Except.ok (), st', sent⟩ →
      alookup h st'.spawnedProcesses = none ∧
      ∀ osOk', killProcess st' h osOk' =
        ⟨Except.error MgrErr.notFound, st', false⟩) ∧
    (∀ p, alookup h st.spawnedProcesses = some p → p.exited = true →
      killProcess st h osOk =
        ⟨Except.ok (),
          { st with spawnedProcesses := aerase h st.spawnedProcesses },
          false⟩) := by
  refine ⟨?_, ?_, ?_⟩
  · intro h0
    simp [killProcess, h0]
  · intro st' sent heq
    unfold killProcess at heq
    have hst' : st' =
        { st with spawnedProcesses := aerase h st.spawnedProcesses } := by
      split at heq
      · injection heq with h1
        exact Except.noConfusion h1
      · split at heq
        · injection heq with _ hs
          exact hs.symm
        · split at heq
          · injection heq with _ hs
            exact hs.symm
          · injection heq with h1
            exact Except.noConfusion h1
    subst hst'
    have hnone : alookup h (aerase h st.spawnedProcesses) = none :=
      alookup_aerase_self h st.spawnedProcesses
    exact ⟨hnone, fun osOk' => by simp [killProcess, hnone]⟩
  · intro p hp hex
    simp [killProcess, hp, hex]

/-- Witness for C4 at `exampleMState`: killing the running `p1` succeeds
and a second kill reports `NotFound`; killing the already-exited `p2`
succeeds without sending a signal; an unknown handle reports `NotFound`. -/
theorem killProcess_correct_witness :
    alookup "p1" (killProcess exampleMState "p1" true).state.spawnedProcesses
      = none ∧
    killProcess (killProcess exampleMState "p1" true).state "p1" true =
      ⟨Except.error MgrErr.notFound,
        (killProcess exampleMState "p1" true).state, false⟩ ∧
    (killProcess exampleMState "p2" true).sentKill = false ∧
    (killProcess exampleMState "p2" true).outcome = Except.ok () ∧
    killProcess exampleMState "zz" true =
      ⟨Except.error MgrErr.notFound, exampleMState, false⟩ := by
  have hfirst := ((killProcess_correct exampleMState "p1" true).2.1
    (killProcess exampleMState "p1" true).state
    (killProcess exampleMState "p1" true).sentKill rfl)
  have hexited := (killProcess_correct exampleMState "p2" true).2.2
    ⟨"e2", true, true, [], 1000⟩ rfl rfl
  have hnf := (killProcess_correct exampleMState "zz" true).1 rfl
  exact ⟨hfirst.1, hfirst.2 true, by rw [hexited], by rw [hexited], hnf⟩

/-- C3: the capture buffer never exceeds its capacity `N` after an append;
appending `N + k` lines leaves exactly the last `N` lines in append
order, which `GetProcessOutput` with `tailLines = 0` returns in full; a
`tailLines` strictly between `0` and the buffer length yields exactly the
last `tailLines` lines in order. (`SpawnProcess` sets the capacity to
`defaultMaxLines = 1000`.) -/
theorem processOutput_buffer_correct (N k : Nat) (lines : List String)
    (buf : List String) (line : String) (t : Nat) :
    (appendLine N buf line).length ≤ N ∧
    (lines.length = N + k →
      List.foldl (appendLine N) [] lines = lines.drop k) ∧
    (∀ p : MProcess, p.captureOutput = true →
      getOutput p 0 = Except.ok p.outputLines) ∧
    (∀ p : MProcess, p.captureOutput = true → 0 < t →
      t < p.outputLines.length →
      getOutput p (t : Int) = Except.ok (lastN t p.outputLines)) := by
  refine ⟨?_, ?_, ?_, ?_⟩
  · rw [appendLine_eq_lastN]
    exact lastN_length_le _ _
  · intro hlen
    rw [foldl_appendLine_nil]
    unfold lastN
    congr 1
    omega
  · intro p hc
    simp [getOutput, hc]
  · intro p hc ht hlt
    have hcond : ¬ ((t : Int) ≤ 0 ∨ (p.outputLines.length : Int) ≤ (t : Int)) := by
      push_neg
      constructor
      · exact_mod_cast ht
      · exact_mod_cast hlt
    unfold getOutput
    rw [hc]
    simp only [Bool.true_eq_false, if_false, if_neg hcond]
    unfold lastN
    congr 2

/-- Witness for C3 with capacity `N = 2` and `N + 1` appended lines. -/
theorem processOutput_buffer_correct_witness :
    List.foldl (appendLine 2) [] ["a", "b", "c"] = ["b", "c"] ∧
    getOutput ⟨"e1", true, false, ["b", "c"], 2⟩ 0 =
      Except.ok ["b", "c"] ∧
    getOutput ⟨"e1", true, false, ["b", "c"], 2⟩ 1 = Except.ok ["c"] := by
  have h := processOutput_buffer_correct 2 1 ["a", "b", "c"] [] "x" 1
  refine ⟨h.2.1 rfl, h.2.2.1 ⟨"e1", true, false, ["b", "c"], 2⟩ rfl, ?_⟩
  have := h.2.2.2 ⟨"e1", true, false, ["b", "c"], 2⟩ rfl (by decide) (by decide)
  simpa [lastN] using this

/-! ## Slice backing-store model for the fresh-copy property (C10)

`GetProcessOutput` builds its result with `make([]string, n)` followed by
`copy`.  To state that the result aliases no storage of the process's
buffer, Go slices are modelled explicitly: a heap of backing arrays and
slice references `(array id, offset, length)` into it. -/

structure SliceHeap where
  arrays : List (List String)
  deriving Repr

structure SliceRef where
  arrId : Nat
  off : Nat
  len : Nat
  deriving DecidableEq, Repr

/-- The string sequence a slice denotes. -/
def sliceView (h : SliceHeap) (s : SliceRef) : List String :=
  ((h.arrays.getD s.arrId []).drop s.off).take s.len

/-- `make([]string, len(data))` followed by `copy(result, data)`: a fresh
backing array holding `data`. -/
def allocArray (h : SliceHeap) (data : List String) : SliceHeap × SliceRef :=
  (⟨h.arrays ++ [data]⟩, ⟨h.arrays.length, 0, data.length⟩)

/-- In-place update `s[i] = v` through a slice. -/
def writeSlice (h : SliceHeap) (s : SliceRef) (i : Nat) (v : String) :
    SliceHeap :=
  ⟨h.arrays.set s.arrId ((h.arrays.getD s.arrId []).set (s.off + i) v)⟩

/-- `GetProcessOutput` with the slice backing store explicit: the
capture-disabled check, then copy of the whole buffer (for
`tailLines ≤ 0` or `tailLines ≥ len`) or of the last `tailLines` lines
into a freshly allocated array. -/
def getProcessOutputH (h : SliceHeap) (captureOn : Bool) (buf : SliceRef)
    (tailLines : Int) : Except MgrErr (SliceHeap × SliceRef) :=
  if captureOn = false then Except.error MgrErr.captureDisabled
  else if tailLines ≤ 0 ∨ ((sliceView h buf).length : Int) ≤ tailLines then
    Except.ok (allocArray h (sliceView h buf))
  else
    Except.ok (allocArray h
      ((sliceView h buf).drop ((sliceView h buf).length - tailLines.toNat)))

theorem getD_append_lt {l l' : List (List String)} {i : Nat}
    (h : i < l.length) (d : List String) :
    (l ++ l').getD i d = l.getD i d := by
  induction l generalizing i with
  | nil => exact absurd h (by simp)
  | cons hd tl ih =>
    cases i with
    | zero => rfl
    | succ j =>
      have hj : j < tl.length := by simpa using h
      simpa [List.getD] using ih hj

theorem getD_append_self (l : List (List String)) (x d : List String) :
    (l ++ [x]).getD l.length d = x := by
  induction l with
  | nil => rfl
  | cons hd tl ih => exact ih

theorem getD_set_ne {l : List (List String)} {i j : Nat} (h : i ≠ j)
    (a d : List String) : (l.set i a).getD j d = l.getD j d := by
  induction l generalizing i j with
  | nil => rfl
  | cons hd tl ih =>
    cases i with
    | zero =>
      cases j with
      | zero => exact absurd rfl h
      | succ j' => rfl
    | succ i' =>
      cases j with
      | zero => rfl
      | succ j' =>
        have : i' ≠ j' := fun he => h (by rw [he])
        simpa [List.getD] using ih this

theorem sliceView_alloc_other (h : SliceHeap) (data : List String)
    (s : SliceRef) (hlt : s.arrId < h.arrays.length) :
    sliceView (allocArray h data).1 s = sliceView h s := by
  unfold sliceView allocArray
  rw [getD_append_lt hlt]

theorem sliceView_alloc_ret (h : SliceHeap) (data : List String) :
    sliceView (allocArray h data).1 (allocArray h data).2 = data := by
  unfold sliceView allocArray
  simp [getD_append_self]

theorem sliceView_write_other (h : SliceHeap) (s s' : SliceRef)
    (i : Nat) (v : String) (hne : s'.arrId ≠ s.arrId) :
    sliceView (writeSlice h s' i v) s = sliceView h s := by
  unfold sliceView writeSlice
  rw [getD_set_ne hne]

/-- The line sequence `GetProcessOutput` copies out, as a pure function
of the buffer's current contents and `tailLines`. -/
def outputLinesOf (lines : List String) (t : Int) : List String :=
  if t ≤ 0 ∨ (lines.length : Int) ≤ t then lines
  else lines.drop (lines.length - t.toNat)

theorem getProcessOutputH_ok (h : SliceHeap) (buf : SliceRef) (t : Int)
    (h'' : SliceHeap) (ret'' : SliceRef)
    (heq : getProcessOutputH h true buf t = Except.ok (h'', ret'')) :
    h'' = (allocArray h (outputLinesOf (sliceView h buf) t)).1 ∧
    ret'' = (allocArray h (outputLinesOf (sliceView h buf) t)).2 := by
  unfold getProcessOutputH at heq
  rw [if_neg (by simp)] at heq
  unfold outputLinesOf
  by_cases hcond : t ≤ 0 ∨ ((sliceView h buf).length : Int) ≤ t
  · rw [if_pos hcond] at heq
    rw [if_pos hcond]
    have heq' : allocArray h (sliceView h buf) = (h'', ret'') := by
      injection heq
    exact ⟨(congrArg Prod.fst heq').symm, (congrArg Prod.snd heq').symm⟩
  · rw [if_neg hcond] at heq
    rw [if_neg hcond]
    have heq' : allocArray h ((sliceView h buf).drop
        ((sliceView h buf).length - t.toNat)) = (h'', ret'') := by
      injection heq
    exact ⟨(congrArg Prod.fst heq').symm, (congrArg Prod.snd heq').symm⟩

theorem allocArray_arrId_ne (h : SliceHeap) (data : List String)
    (buf : SliceRef) (hwf : buf.arrId < h.arrays.length) :
    (allocArray h data).2.arrId ≠ buf.arrId := by
  unfold allocArray
  intro hctr
  simp only [] at hctr
  omega

theorem writeSlice_arrays_length (h : SliceHeap) (s : SliceRef) (i : Nat)
    (v : String) : (writeSlice h s i v).arrays.length = h.arrays.length := by
  unfold writeSlice
  simp

/-- C10: `GetProcessOutput` returns a fresh copy — the returned slice's
backing array is not the buffer's, so writing through the returned slice
leaves the buffer's contents unchanged, and a second call (with no
intervening appends), before or after such a write, denotes the same line
sequence as the first result. -/
theorem getProcessOutput_fresh_copy (h : SliceHeap) (buf : SliceRef)
    (t : Int) (hwf : buf.arrId < h.arrays.length) (h' : SliceHeap)
    (ret : SliceRef)
    (heq : getProcessOutputH h true buf t = Except.ok (h', ret)) :
    ret.arrId ≠ buf.arrId ∧
    (∀ i v, sliceView (writeSlice h' ret i v) buf = sliceView h buf) ∧
    (∀ h'' ret'', getProcessOutputH h' true buf t = Except.ok (h'', ret'') →
      sliceView h'' ret'' = sliceView h' ret) ∧
    (∀ i v h'' ret'',
      getProcessOutputH (writeSlice h' ret i v) true buf t =
        Except.ok (h'', ret'') →
      sliceView h'' ret'' = sliceView h' ret) := by
  obtain ⟨hh, hr⟩ := getProcessOutputH_ok h buf t h' ret heq
  have hne : ret.arrId ≠ buf.arrId := by
    rw [hr]
    exact allocArray_arrId_ne h _ buf hwf
  have hview : sliceView h' buf = sliceView h buf := by
    rw [hh]
    exact sliceView_alloc_other h _ buf hwf
  have hretview : sliceView h' ret = outputLinesOf (sliceView h buf) t := by
    rw [hh, hr]
    exact sliceView_alloc_ret h _
  have hwrview : ∀ i v, sliceView (writeSlice h' ret i v) buf =
      sliceView h buf := by
    intro i v
    rw [sliceView_write_other _ _ _ _ _ hne, hview]
  refine ⟨hne, hwrview, ?_, ?_⟩
  · intro h'' ret'' heq2
    obtain ⟨hh2, hr2⟩ := getProcessOutputH_ok h' buf t h'' ret'' heq2
    rw [hh2, hr2, sliceView_alloc_ret, hview, hretview]
  · intro i v h'' ret'' heq2
    obtain ⟨hh2, hr2⟩ :=
      getProcessOutputH_ok (writeSlice h' ret i v) buf t h'' ret'' heq2
    rw [hh2, hr2, sliceView_alloc_ret, hwrview, hretview]

/-- Witness for C10: one array `["a", "b"]` in the heap, the buffer slice
covering it, `tailLines = 0`; writing `"z"` through the returned slice
leaves the buffer's view `["a", "b"]`. -/
theorem getProcessOutput_fresh_copy_witness :
    (getProcessOutputH ⟨[["a", "b"]]⟩ true ⟨0, 0, 2⟩ 0).isOk = true ∧
    (∀ h' ret,
      getProcessOutputH ⟨[["a", "b"]]⟩ true ⟨0, 0, 2⟩ 0 =
        Except.ok (h', ret) →
      sliceView (writeSlice h' ret 0 "z") ⟨0, 0, 2⟩ = ["a", "b"]) := by
  refine ⟨rfl, ?_⟩
  intro h' ret heq
  have hmain := getProcessOutput_fresh_copy ⟨[["a", "b"]]⟩ ⟨0, 0, 2⟩ 0
    (by decide) h' ret heq
  have := hmain.2.1 0 "z"
  rw [this]
  rfl

/-! ## Federation aggregator (proxy package: RemoteClient, ToolAggregator) -/

/-- Outcomes of the four stages of `RemoteClient.Connect` — client
creation, `Start`, `Initialize`, and the tool-list fetch — plus the tool
names the remote reports when the fetch succeeds. -/
structure ConnAttempt where
  createOk : Bool
  startOk : Bool
  initOk : Bool
  fetchOk : Bool
  tools : List String
  deriving DecidableEq, Repr

inductive ConnErr where
  | createFailed
  | startFailed
  | initFailed
  | fetchFailed
  deriving DecidableEq, Repr

/-- `RemoteClient.Connect`: create the HTTP client, start it, run the
`Initialize` handshake, then fetch the remote tool list; the first failing
stage aborts with its error. -/
def connect (att : ConnAttempt) : Except ConnErr (List String) :=
  if att.createOk = false then Except.error ConnErr.createFailed
  else if att.startOk = false then Except.error ConnErr.startFailed
  else if att.initOk = false then Except.error ConnErr.initFailed
  else if att.fetchOk = false then Except.error ConnErr.fetchFailed
  else Except.ok att.tools

/-- Whether `Connect` closed the opened connection on failure: the source
calls `c.Close()` when `Initialize` fails and when the tool fetch fails
(both only reachable after a successful `Start`). -/
def connectClosed (att : ConnAttempt) : Bool :=
  att.createOk && att.startOk && (!att.initOk || !att.fetchOk)

/-- `ToolAggregator` state: `remotes` maps an instance name to its
connected peer's tool list; `toolMapping` maps a namespaced tool name to
its source instance name and original tool name. -/
structure AggState where
  remotes : List (String × List String)
  toolMapping : List (String × (String × String))
  deriving DecidableEq, Repr

/-- `ToolAggregator.AddRemote`: no-op for an already-connected instance
name; otherwise connect (all four stages) and, only on full success,
register the peer and one `instance:tool` mapping per fetched tool. -/
def addRemote (st : AggState) (name : String) (att : ConnAttempt) :
    Except ConnErr Unit × AggState :=
  match alookup name st.remotes with
  | some _ => (Except.ok (), st)
  | none =>
    match connect att with
    | Except.error e => (Except.error e, st)
    | Except.ok tools =>
      (Except.ok (),
        ⟨st.remotes ++ [(name, tools)],
          st.toolMapping ++
            tools.map (fun tl => (name ++ ":" ++ tl, (name, tl)))⟩)

/-- C5: failure of the `Initialize` handshake or of the capability fetch
after a successful connect makes `AddRemote` return an error, close the
half-open connection, and leave the aggregator unchanged, so it still
holds no capability entry and no peer-connection entry referencing the
peer; entries appear only when create, start, handshake and fetch all
succeed (all-or-nothing import); `AddRemote` for an already-connected
instance name is a no-op returning success. -/
theorem addRemote_atomic (st : AggState) (name : String)
    (att : ConnAttempt) :
    (alookup name st.remotes ≠ none →
      addRemote st name att = (Except.ok (), st)) ∧
    (alookup name st.remotes = none → att.createOk = true →
      att.startOk = true → (att.initOk = false ∨ att.fetchOk = false) →
      (addRemote st name att).1.isOk = false ∧
      (addRemote st name att).2 = st ∧
      connectClosed att = true) ∧
    ((addRemote st name att).2 ≠ st →
      connect att = Except.ok att.tools ∧ alookup name st.remotes = none) ∧
    (alookup name st.remotes = none →
      (∀ e ∈ st.toolMapping, e.2.1 ≠ name) →
      (addRemote st name att).1.isOk = false →
      alookup name (addRemote st name att).2.remotes = none ∧
      ∀ e ∈ (addRemote st name att).2.toolMapping, e.2.1 ≠ name) ∧
    (alookup name st.remotes = none → connect att = Except.ok att.tools →
      addRemote st name att =
        (Except.ok (),
          ⟨st.remotes ++ [(name, att.tools)],
            st.toolMapping ++
              att.tools.map (fun tl => (name ++ ":" ++ tl, (name, tl)))⟩)) := by
  refine ⟨?_, ?_, ?_, ?_, ?_⟩
  · intro hsome
    unfold addRemote
    cases hl : alookup name st.remotes with
    | none => exact absurd hl hsome
    | some tools => rfl
  · intro hnone hc hs hif
    have herr : (connect att).isOk = false := by
      unfold connect
      rw [hc, hs]
      cases hif with
      | inl h1 => simp [h1, Except.isOk, Except.toBool]
      | inr h2 =>
        cases hi : att.initOk with
        | false => simp [Except.isOk, Except.toBool]
        | true => simp [h2, Except.isOk, Except.toBool]
    refine ⟨?_, ?_, ?_⟩
    · unfold addRemote
      rw [hnone]
      cases hcn : connect att with
      | error e => rfl
      | ok tools => rw [hcn] at herr; simp [Except.isOk, Except.toBool] at herr
    · unfold addRemote
      rw [hnone]
      cases hcn : connect att with
      | error e => rfl
      | ok tools => rw [hcn] at herr; simp [Except.isOk, Except.toBool] at herr
    · unfold connectClosed
      rw [hc, hs]
      cases hif with
      | inl h1 => simp [h1]
      | inr h2 => simp [h2]
  · intro hne
    unfold addRemote at hne
    cases hl : alookup name st.remotes with
    | some tools => rw [hl] at hne; exact absurd rfl hne
    | none =>
      rw [hl] at hne
      cases hcn : connect att with
      | error e => rw [hcn] at hne; exact absurd rfl hne
      | ok tools =>
        refine ⟨?_, rfl⟩
        have htools : tools = att.tools := by
          unfold connect at hcn
          by_cases h1 : att.createOk = false
          · rw [if_pos h1] at hcn; exact Except.noConfusion hcn
          · rw [if_neg h1] at hcn
            by_cases h2 : att.startOk = false
            · rw [if_pos h2] at hcn; exact Except.noConfusion hcn
            · rw [if_neg h2] at hcn
              by_cases h3 : att.initOk = false
              · rw [if_pos h3] at hcn; exact Except.noConfusion hcn
              · rw [if_neg h3] at hcn
                by_cases h4 : att.fetchOk = false
                · rw [if_pos h4] at hcn; exact Except.noConfusion hcn
                · rw [if_neg h4] at hcn
                  exact (Except.ok.inj hcn).symm
        exact congrArg Except.ok htools
  · intro hnone hclean herr
    have hst : (addRemote st name att).2 = st := by
      unfold addRemote
      rw [hnone]
      cases hcn : connect att with
      | error e => rfl
      | ok tools =>
        exfalso
        unfold addRemote at herr
        rw [hnone, hcn] at herr
        simp [Except.isOk, Except.toBool] at herr
    rw [hst]
    exact ⟨hnone, hclean⟩
  · intro hnone hok
    unfold addRemote
    rw [hnone, hok]

/-- Witness for C5: on an empty aggregator, a fetch failure after a
successful connect leaves the state empty with the connection closed,
while a fully successful attempt registers the namespaced tools; a second
`AddRemote` for the same name is a no-op. -/
theorem addRemote_atomic_witness :
    (addRemote ⟨[], []⟩ "peera" ⟨true, true, true, false, ["t1"]⟩).2 =
      ⟨[], []⟩ ∧
    (addRemote ⟨[], []⟩ "peera" ⟨true, true, true, false, ["t1"]⟩).1.isOk =
      false ∧
    connectClosed ⟨true, true, true, false, ["t1"]⟩ = true ∧
    addRemote ⟨[], []⟩ "peera" ⟨true, true, true, true, ["t1"]⟩ =
      (Except.ok (),
        ⟨[("peera", ["t1"])], [("peera:t1", ("peera", "t1"))]⟩) ∧
    addRemote ⟨[("peera", ["t1"])], [("peera:t1", ("peera", "t1"))]⟩
        "peera" ⟨true, true, true, true, ["t2"]⟩ =
      (Except.ok (),
        ⟨[("peera", ["t1"])], [("peera:t1", ("peera", "t1"))]⟩) := by
  have hfail := (addRemote_atomic ⟨[], []⟩ "peera"
    ⟨true, true, true, false, ["t1"]⟩).2.1 rfl rfl rfl (Or.inr rfl)
  have hok := (addRemote_atomic ⟨[], []⟩ "peera"
    ⟨true, true, true, true, ["t1"]⟩).2.2.2.2 rfl rfl
  have hnoop := (addRemote_atomic
    ⟨[("peera", ["t1"])], [("peera:t1", ("peera", "t1"))]⟩ "peera"
    ⟨true, true, true, true, ["t2"]⟩).1 (by decide)
  exact ⟨hfail.2.1, hfail.1, hfail.2.2, hok, hnoop⟩

/-! ## Discovery browser (internal/discovery/browser.go) -/

/-- `ServiceInfo` of the discovery package.  `parseResponse` fills `host`
from the packet's source address and `port` from the SRV record (0 when
the response carries none). -/
structure ServiceInfo where
  instanceName : String
  host : String
  port : Int
  note : String
  endpoint : String
  tls : Bool
  deriving DecidableEq, Repr

/-- The body of `Discover`'s receive loop for one parsed response: insert
under the instance name, or — on a duplicate — keep the existing record
and only backfill an empty `note`. -/
def mergeResponse (svcs : List (String × ServiceInfo)) (info : ServiceInfo) :
    List (String × ServiceInfo) :=
  match alookup info.instanceName svcs with
  | some existing =>
    if existing.note = "" ∧ info.note ≠ "" then
      svcs.map (fun kv =>
        if kv.1 = info.instanceName then (kv.1, { kv.2 with note := info.note })
        else kv)
    else svcs
  | none => svcs ++ [(info.instanceName, info)]

/-- The deduplication map `Discover` builds from the parsed responses, in
arrival order. -/
def collectResponses (resps : List ServiceInfo) :
    List (String × ServiceInfo) :=
  resps.foldl mergeResponse []

/-- `mapToSlice`: the records `Discover` returns — only those with a
positive port and a nonempty host survive. -/
def mapToSlice (m : List (String × ServiceInfo)) : List ServiceInfo :=
  (m.map Prod.snd).filter (fun info => 0 < info.port ∧ info.host ≠ "")

/-- `Discover`'s return value as a function of the parsed responses. -/
def discoverResult (resps : List ServiceInfo) : List ServiceInfo :=
  mapToSlice (collectResponses resps)

/-- C7 counterexample: two response packets carrying the same instance
name but no SRV record (port 0, as `parseResponse` produces), one with an
empty note and one with `note = "x"`: `Discover`'s result contains no
record at all for that name — not exactly one as claimed — because the
final filter drops portless records. -/
theorem discover_dedup_counterexample :
    (⟨"peer", "10.0.0.5", 0, "", "/mcp", false⟩ : ServiceInfo).instanceName =
      (⟨"peer", "10.0.0.6", 0, "x", "/mcp", false⟩ : ServiceInfo).instanceName ∧
    discoverResult [⟨"peer", "10.0.0.5", 0, "", "/mcp", false⟩,
      ⟨"peer", "10.0.0.6", 0, "x", "/mcp", false⟩] = [] := by
  constructor
  · rfl
  · rfl

/-- C7 (amended): for two response packets with the same instance name
that each carry a usable (positive) port and a usable (nonempty) host,
`Discover`'s result has exactly one record for that name, with host and
port from the first packet processed, and with note `x` whenever one
packet carried note `x` and the other an empty note — in either arrival
order. -/
theorem discover_dedup_backfill (i1 i2 : ServiceInfo) (x : String)
    (hname : i2.instanceName = i1.instanceName)
    (hport1 : 0 < i1.port) (hport2 : 0 < i2.port)
    (hhost1 : i1.host ≠ "") (hhost2 : i2.host ≠ "")
    (hnote : (i1.note = "" ∧ i2.note = x) ∨ (i1.note = x ∧ i2.note = "")) :
    discoverResult [i1, i2] = [{ i1 with note := x }] ∧
    discoverResult [i2, i1] = [{ i2 with note := x }] := by
  constructor
  · have hstep : collectResponses [i1, i2] =
        [(i1.instanceName, { i1 with note := x })] := by
      unfold collectResponses
      simp only [List.foldl_cons, List.foldl_nil]
      have h1 : mergeResponse [] i1 = [(i1.instanceName, i1)] := rfl
      rw [h1]
      rcases hnote with ⟨ha, hb⟩ | ⟨ha, hb⟩
      · by_cases hx : x = ""
        · have hrec : ({ i1 with note := x } : ServiceInfo) = i1 := by
            rw [hx, ← ha]
          have hcond : ¬ (i1.note = "" ∧ i2.note ≠ "") := by
            intro hc
            exact hc.2 (by rw [hb, hx])
          rw [hrec]
          unfold mergeResponse
          rw [hname]
          simp [alookup, hcond]
        · have hcond : i1.note = "" ∧ i2.note ≠ "" := by
            refine ⟨ha, ?_⟩
            rw [hb]
            exact hx
          unfold mergeResponse
          rw [hname]
          simp [alookup, hcond, hb]
          intro hx'
          exact absurd hx' hx
      · have hcond : ¬ (i1.note = "" ∧ i2.note ≠ "") := by
          intro hc
          exact hc.2 hb
        have hrec : ({ i1 with note := x } : ServiceInfo) = i1 := by
          rw [← ha]
        rw [hrec]
        unfold mergeResponse
        rw [hname]
        simp [alookup, hcond]
    unfold discoverResult
    rw [hstep]
    unfold mapToSlice
    simp [List.filter, hport1, hhost1]
  · have hstep : collectResponses [i2, i1] =
        [(i2.instanceName, { i2 with note := x })] := by
      unfold collectResponses
      simp only [List.foldl_cons, List.foldl_nil]
      have h1 : mergeResponse [] i2 = [(i2.instanceName, i2)] := rfl
      rw [h1]
      rcases hnote with ⟨ha, hb⟩ | ⟨ha, hb⟩
      · have hcond : ¬ (i2.note = "" ∧ i1.note ≠ "") := by
          intro hc
          exact hc.2 ha
        have hrec : ({ i2 with note := x } : ServiceInfo) = i2 := by
          rw [← hb]
        rw [hrec]
        unfold mergeResponse
        simp [alookup, hname, hcond]
      · by_cases hx : x = ""
        · have hcond : ¬ (i2.note = "" ∧ i1.note ≠ "") := by
            intro hc
            exact hc.2 (by rw [ha, hx])
          have hrec : ({ i2 with note := x } : ServiceInfo) = i2 := by
            rw [hx, ← hb]
          rw [hrec]
          unfold mergeResponse
          simp [alookup, hname, hcond]
        · have hcond : i2.note = "" ∧ i1.note ≠ "" := by
            refine ⟨hb, ?_⟩
            rw [ha]
            exact hx
          unfold mergeResponse
          simp [alookup, hname, hcond, ha]
          intro hx'
          exact absurd hx' hx
    unfold discoverResult
    rw [hstep]
    unfold mapToSlice
    simp [List.filter, hport2, hhost2]

/-- Witness for the amended C7: a response with an empty note merged with
a later one carrying note `"x"`, and the two arrival orders. -/
theorem discover_dedup_backfill_witness :
    discoverResult [⟨"peer", "10.0.0.5", 8080, "", "/mcp", false⟩,
      ⟨"peer", "10.0.0.6", 9090, "x", "/mcp", false⟩] =
      [⟨"peer", "10.0.0.5", 8080, "x", "/mcp", false⟩] ∧
    discoverResult [⟨"peer", "10.0.0.6", 9090, "x", "/mcp", false⟩,
      ⟨"peer", "10.0.0.5", 8080, "", "/mcp", false⟩] =
      [⟨"peer", "10.0.0.6", 9090, "x", "/mcp", false⟩] := by
  have h := discover_dedup_backfill
    ⟨"peer", "10.0.0.5", 8080, "", "/mcp", false⟩
    ⟨"peer", "10.0.0.6", 9090, "x", "/mcp", false⟩ "x"
    rfl (by decide) (by decide) (by decide) (by decide)
    (Or.inl ⟨rfl, rfl⟩)
  exact h

/-- C9 counterexample: a parsed record with a usable (nonempty) host but
port 0 — it lacks only the port, not both — is nevertheless omitted from
`Discover`'s returned set. -/
theorem discover_filter_counterexample :
    (⟨"peer", "10.0.0.5", 0, "", "/mcp", false⟩ : ServiceInfo).host ≠ "" ∧
    mapToSlice [("peer", ⟨"peer", "10.0.0.5", 0, "", "/mcp", false⟩)] =
      [] := by
  constructor
  · decide
  · rfl

/-- C9 (amended): `Discover`'s returned set omits a collected record
exactly when that record lacks a usable (positive) port or lacks a usable
(nonempty) host; equivalently a record is included iff it has both. -/
theorem discover_filter_included (resps : List ServiceInfo)
    (info : ServiceInfo)
    (hmem : info ∈ (collectResponses resps).map Prod.snd) :
    info ∈ discoverResult resps ↔ (0 < info.port ∧ info.host ≠ "") := by
  unfold discoverResult mapToSlice
  rw [List.mem_filter]
  simp [hmem]

/-- Witness for the amended C9: of two collected records, the one with a
positive port is included and the portless one is omitted. -/
theorem discover_filter_included_witness :
    ((⟨"a", "10.0.0.5", 8080, "", "/mcp", false⟩ : ServiceInfo) ∈
      discoverResult [⟨"a", "10.0.0.5", 8080, "", "/mcp", false⟩,
        ⟨"b", "10.0.0.6", 0, "", "/mcp", false⟩]) ∧
    ¬ ((⟨"b", "10.0.0.6", 0, "", "/mcp", false⟩ : ServiceInfo) ∈
      discoverResult [⟨"a", "10.0.0.5", 8080, "", "/mcp", false⟩,
        ⟨"b", "10.0.0.6", 0, "", "/mcp", false⟩]) := by
  constructor
  · exact (discover_filter_included _ _ (by decide)).mpr (by decide)
  · intro hmem
    exact absurd ((discover_filter_included _ _ (by decide)).mp hmem)
      (by decide)

/-! ## Announcer address selection (internal/discovery/announce.go) -/

structure IPv4 where
  a : Nat
  b : Nat
  c : Nat
  d : Nat
  deriving DecidableEq, Repr

/-- One address of a network interface; `isIPv4` models
`ip.To4() != nil`. -/
structure IfaceAddr where
  isIPv4 : Bool
  ip : IPv4
  deriving DecidableEq, Repr

/-- A network interface as `getLocalIPs` sees it: name, up flag,
loopback flag, and its addresses. -/
structure NetInterface where
  name : String
  up : Bool
  loopback : Bool
  addrs : List IfaceAddr
  deriving DecidableEq, Repr

/-- The whitelist of physical interface name patterns of
`isPhysicalInterface`. -/
def physicalNamePatterns : List String :=
  ["eth", "eno", "ens", "enp", "enx", "wlan", "wlp", "wls",
   "en", "bge", "em", "igb", "ix", "re"]

/-- ASCII lowercasing of an interface name (`strings.ToLower`), on the
character list of the string. -/
def lowerChars (s : String) : List Char := s.data.map Char.toLower

/-- `isPhysicalInterface`: the lowercased name starts with one of the
whitelist patterns. -/
def isPhysicalInterface (name : String) : Bool :=
  physicalNamePatterns.any (fun p => List.isPrefixOf p.data (lowerChars name))

/-- `isRoutableIP`: reject non-IPv4, loopback (127.x), link-local
(169.254.x), CGNAT (100.64-127.x) and the Docker ranges (172.17-31.x). -/
def isRoutableIP (ad : IfaceAddr) : Bool :=
  if ad.isIPv4 = false then false
  else if ad.ip.a = 127 then false
  else if ad.ip.a = 169 ∧ ad.ip.b = 254 then false
  else if ad.ip.a = 100 ∧ 64 ≤ ad.ip.b ∧ ad.ip.b ≤ 127 then false
  else if ad.ip.a = 172 ∧ 17 ≤ ad.ip.b ∧ ad.ip.b ≤ 31 then false
  else true

/-- One iteration of `getLocalIPs`' interface loop: skip loopback and
down interfaces, skip non-whitelisted names, then collect the routable
IPv4 addresses. -/
def ipStep (acc : List IPv4) (iface : NetInterface) : List IPv4 :=
  if iface.loopback = true ∨ iface.up = false then acc
  else if isPhysicalInterface iface.name = false then acc
  else acc ++
    (iface.addrs.filter (fun ad => ad.isIPv4 && isRoutableIP ad)).map
      (fun ad => ad.ip)

/-- The addresses collected from the interface loop. -/
def collectedIPs (ifaces : List NetInterface) : List IPv4 :=
  ifaces.foldl ipStep []

/-- `getLocalIPs`: the collected addresses, or the loopback fallback
`127.0.0.1` when the loop collected nothing. -/
def getLocalIPs (ifaces : List NetInterface) : List IPv4 :=
  if (collectedIPs ifaces).isEmpty then [⟨127, 0, 0, 1⟩]
  else collectedIPs ifaces

theorem isRoutableIP_true_iff (ad : IfaceAddr) :
    isRoutableIP ad = true ↔
      ad.isIPv4 = true ∧ ad.ip.a ≠ 127 ∧
      ¬ (ad.ip.a = 169 ∧ ad.ip.b = 254) ∧
      ¬ (ad.ip.a = 100 ∧ 64 ≤ ad.ip.b ∧ ad.ip.b ≤ 127) ∧
      ¬ (ad.ip.a = 172 ∧ 17 ≤ ad.ip.b ∧ ad.ip.b ≤ 31) := by
  unfold isRoutableIP
  split_ifs with h1 h2 h3 h4 h5 <;> simp_all

theorem mem_foldl_ipStep (ifaces : List NetInterface) (acc : List IPv4)
    (ip : IPv4) (hmem : ip ∈ List.foldl ipStep acc ifaces) :
    ip ∈ acc ∨
    ∃ iface, iface ∈ ifaces ∧ iface.loopback = false ∧ iface.up = true ∧
      isPhysicalInterface iface.name = true ∧
      ∃ ad, ad ∈ iface.addrs ∧ ad.isIPv4 = true ∧ isRoutableIP ad = true ∧
        ad.ip = ip := by
  induction ifaces generalizing acc with
  | nil => exact Or.inl hmem
  | cons i l ih =>
    rw [List.foldl_cons] at hmem
    rcases ih (ipStep acc i) hmem with hacc | ⟨iface, hif, hrest⟩
    · unfold ipStep at hacc
      by_cases hskip : i.loopback = true ∨ i.up = false
      · rw [if_pos hskip] at hacc
        exact Or.inl hacc
      · rw [if_neg hskip] at hacc
        by_cases hphys : isPhysicalInterface i.name = false
        · rw [if_pos hphys] at hacc
          exact Or.inl hacc
        · rw [if_neg hphys] at hacc
          rcases List.mem_append.mp hacc with hacc' | hnew
          · exact Or.inl hacc'
          · refine Or.inr ⟨i, List.mem_cons_self i l, ?_, ?_, ?_, ?_⟩
            · cases hl : i.loopback with
              | false => rfl
              | true => exact absurd (Or.inl hl) hskip
            · cases hu : i.up with
              | false => exact absurd (Or.inr hu) hskip
              | true => rfl
            · cases hp : isPhysicalInterface i.name with
              | false => exact absurd hp hphys
              | true => rfl
            · obtain ⟨ad, hadf, hip⟩ := List.mem_map.mp hnew
              obtain ⟨hmem', hcondb⟩ := List.mem_filter.mp hadf
              have hc := Bool.and_eq_true_iff.mp hcondb
              exact ⟨ad, hmem', hc.1, hc.2, hip⟩
    · exact Or.inr ⟨iface, List.mem_cons_of_mem i hif, hrest⟩

/-- C8 counterexample: with no qualifying interface — no interfaces at
all, or only a Docker bridge — `getLocalIPs` falls back to the loopback
address `127.0.0.1`, so the published address set can contain a loopback
address. -/
theorem announcer_loopback_counterexample :
    getLocalIPs [] = [⟨127, 0, 0, 1⟩] ∧
    getLocalIPs [⟨"docker0", true, false, [⟨true, ⟨172, 17, 0, 1⟩⟩]⟩] =
      [⟨127, 0, 0, 1⟩] ∧
    (⟨127, 0, 0, 1⟩ : IPv4).a = 127 := by
  refine ⟨rfl, rfl, rfl⟩

/-- C8 (amended): every address `getLocalIPs` returns either is the
loopback fallback `127.0.0.1` — taken exactly when the interface loop
collected nothing — or comes from an up, non-loopback interface admitted
by the physical-name whitelist, and is then an IPv4 address that is not
loopback, not link-local, not CGNAT, and not in the Docker ranges. -/
theorem announcer_ips_filtered (ifaces : List NetInterface) (ip : IPv4)
    (hmem : ip ∈ getLocalIPs ifaces) :
    (collectedIPs ifaces = [] ∧ ip = ⟨127, 0, 0, 1⟩) ∨
    (∃ iface, iface ∈ ifaces ∧ iface.loopback = false ∧ iface.up = true ∧
      isPhysicalInterface iface.name = true ∧
      (∃ ad, ad ∈ iface.addrs ∧ ad.isIPv4 = true ∧ isRoutableIP ad = true ∧
        ad.ip = ip) ∧
      ip.a ≠ 127 ∧ ¬ (ip.a = 169 ∧ ip.b = 254) ∧
      ¬ (ip.a = 100 ∧ 64 ≤ ip.b ∧ ip.b ≤ 127) ∧
      ¬ (ip.a = 172 ∧ 17 ≤ ip.b ∧ ip.b ≤ 31)) := by
  unfold getLocalIPs at hmem
  by_cases hempty : (collectedIPs ifaces).isEmpty
  · rw [if_pos hempty] at hmem
    refine Or.inl ⟨List.isEmpty_iff.mp hempty, ?_⟩
    simpa using hmem
  · rw [if_neg hempty] at hmem
    rcases mem_foldl_ipStep ifaces [] ip hmem with hacc | ⟨iface, h1, h2, h3, h4, ad, h5, h6, h7, h8⟩
    · exact absurd hacc (List.not_mem_nil ip)
    · have hr := (isRoutableIP_true_iff ad).mp h7
      rw [h8] at hr
      exact Or.inr ⟨iface, h1, h2, h3, h4, ⟨ad, h5, h6, h7, h8⟩,
        hr.2.1, hr.2.2.1, hr.2.2.2.1, hr.2.2.2.2⟩

/-- Witness for the amended C8: a host with one `eth0` interface carrying
`192.168.1.5` advertises exactly that address, and the theorem yields a
qualifying interface for it. -/
theorem announcer_ips_filtered_witness :
    getLocalIPs [⟨"eth0", true, false, [⟨true, ⟨192, 168, 1, 5⟩⟩]⟩] =
      [⟨192, 168, 1, 5⟩] ∧
    (⟨192, 168, 1, 5⟩ : IPv4).a ≠ 127 := by
  refine ⟨rfl, ?_⟩
  have h := announcer_ips_filtered
    [⟨"eth0", true, false, [⟨true, ⟨192, 168, 1, 5⟩⟩]⟩] ⟨192, 168, 1, 5⟩
    (by decide)
  rcases h with ⟨hc, _⟩ | ⟨iface, _, _, _, _, _, h127, _⟩
  · exact absurd hc (by decide)
  · exact h127

/-! ## PathGuard (safeJoinPath / isSubPath, manager.go)

The lexical path functions of Go's `path/filepath` (Unix separator) are
modelled on `List Char`: `splitSep` splits on the separator, `cleanStep`
is the component-stack form of `filepath.Clean`'s algorithm (skip empty
and `.` components; on `..`, pop a component, or keep a leading `..` when
the path is relative, or drop it at the root), and `joinComps`
interleaves the separator again. -/

inductive PathErr where
  | absolutePath
  | pathTraversal
  deriving DecidableEq, Repr

/-- Split a character list on `'/'`. -/
def splitSep : List Char → List (List Char)
  | [] => [[]]
  | c :: rest =>
    if c = '/' then [] :: splitSep rest
    else
      match splitSep rest with
      | [] => [[c]]
      | comp :: comps => (c :: comp) :: comps

/-- One step of `filepath.Clean` over a component (stack head = last
pushed component). -/
def cleanStep (rooted : Bool) (stack : List (List Char))
    (comp : List Char) : List (List Char) :=
  if comp = [] ∨ comp = ['.'] then stack
  else if comp = ['.', '.'] then
    match stack with
    | [] => if rooted then [] else [['.', '.']]
    | top :: rest =>
      if rooted then rest
      else if top = ['.', '.'] then comp :: top :: rest
      else rest
  else comp :: stack

def cleanStack (rooted : Bool) (comps : List (List Char)) :
    List (List Char) :=
  comps.foldl (cleanStep rooted) []

/-- Interleave `'/'` between components. -/
def joinComps : List (List Char) → List Char
  | [] => []
  | [c] => c
  | c :: c' :: rest => c ++ '/' :: joinComps (c' :: rest)

/-- `filepath.IsAbs` on Unix: the path starts with the separator. -/
def isAbsL : List Char → Bool
  | '/' :: _ => true
  | _ => false

/-- `filepath.Clean` (Unix). -/
def cleanL (p : List Char) : List Char :=
  if p = [] then ['.']
  else if isAbsL p then
    '/' :: joinComps (cleanStack true (splitSep p)).reverse
  else if (cleanStack false (splitSep p)).reverse = [] then ['.']
  else joinComps (cleanStack false (splitSep p)).reverse

/-- `filepath.Join` for two elements: empty elements are dropped, the
rest joined with the separator and cleaned; all-empty input yields the
empty path. -/
def joinL (a b : List Char) : List Char :=
  if a = [] ∧ b = [] then []
  else if a = [] then cleanL b
  else cleanL (a ++ '/' :: b)

/-- `isSubPath`: clean both paths, give the parent a trailing separator
if it lacks one, and require the child to extend it. -/
def isSubPathL (parent child : List Char) : Bool :=
  let p := cleanL parent
  let c := cleanL child
  let ps := if p.getLast? = some '/' then p else p ++ ['/']
  decide (ps.length ≤ c.length) && decide (c.take ps.length = ps)

/-- `safeJoinPath`: clean the relative path, reject absolute paths, join
with the base, clean, and reject results escaping the base. -/
def safeJoinPathL (base relPath : List Char) :
    Except PathErr (List Char) :=
  let rel := cleanL relPath
  if isAbsL rel then Except.error PathErr.absolutePath
  else
    let full := cleanL (joinL base rel)
    if isSubPathL base full then Except.ok full
    else Except.error PathErr.pathTraversal

def cleanPath (s : String) : String := ⟨cleanL s.data⟩

def joinPath (a b : String) : String := ⟨joinL a.data b.data⟩

def isAbs (s : String) : Bool := isAbsL s.data

def isSubPath (parent child : String) : Bool :=
  isSubPathL parent.data child.data

def safeJoinPath (base rel : String) : Except PathErr String :=
  (safeJoinPathL base.data rel.data).map (fun l => ⟨l⟩)

/-- The spec's notion under which `safeJoinPath` admits a result: after
lexical cleaning, the child extends the base by a separator and a
nonempty remainder (a strict descendant). -/
def IsStrictDescendantOf (child base : String) : Prop :=
  ∃ rest : List Char, rest ≠ [] ∧
    (cleanPath child).data = (cleanPath base).data ++ '/' :: rest

theorem getLast?_append_right (l₁ l₂ : List Char) (h : l₂ ≠ []) :
    (l₁ ++ l₂).getLast? = l₂.getLast? := by
  induction l₁ with
  | nil => rfl
  | cons a t ih =>
    rw [List.cons_append]
    cases ht : t ++ l₂ with
    | nil =>
      rcases List.append_eq_nil.mp ht with ⟨-, h2⟩
      exact absurd h2 h
    | cons c cs =>
      rw [List.getLast?_cons_cons, ← ht, ih]

theorem splitSep_ne_nil (p : List Char) : splitSep p ≠ [] := by
  cases p with
  | nil => simp [splitSep]
  | cons c rest =>
    unfold splitSep
    by_cases hc : c = '/'
    · simp [hc]
    · rw [if_neg hc]
      cases h : splitSep rest with
      | nil => simp
      | cons comp comps => simp

theorem mem_splitSep_no_sep (p : List Char) (comp : List Char)
    (hmem : comp ∈ splitSep p) : '/' ∉ comp := by
  induction p generalizing comp with
  | nil =>
    unfold splitSep at hmem
    rcases List.mem_singleton.mp hmem with rfl
    simp
  | cons c rest ih =>
    unfold splitSep at hmem
    by_cases hc : c = '/'
    · rw [if_pos hc] at hmem
      rcases List.mem_cons.mp hmem with rfl | hmem'
      · simp
      · exact ih comp hmem'
    · rw [if_neg hc] at hmem
      cases hs : splitSep rest with
      | nil => exact absurd hs (splitSep_ne_nil rest)
      | cons c0 comps =>
        rw [hs] at hmem
        rcases List.mem_cons.mp hmem with rfl | hmem'
        · intro hin
          rcases List.mem_cons.mp hin with rfl | hin'
          · exact hc rfl
          · exact ih c0 (hs ▸ List.mem_cons_self c0 comps) hin'
        · exact ih comp (hs ▸ List.mem_cons_of_mem c0 hmem')

/-- Elements of the clean stack are nonempty and separator-free. -/
def StackInv (stack : List (List Char)) : Prop :=
  ∀ x ∈ stack, x ≠ [] ∧ '/' ∉ x

theorem cleanStep_inv (rooted : Bool) (stack : List (List Char))
    (comp : List Char) (hstack : StackInv stack) (hcomp : '/' ∉ comp) :
    StackInv (cleanStep rooted stack comp) := by
  unfold cleanStep
  by_cases h1 : comp = [] ∨ comp = ['.']
  · rw [if_pos h1]
    exact hstack
  · rw [if_neg h1]
    by_cases h2 : comp = ['.', '.']
    · rw [if_pos h2]
      cases stack with
      | nil =>
        cases rooted with
        | false =>
          show StackInv [['.', '.']]
          intro x hx
          rcases List.mem_singleton.mp hx with rfl
          simp
        | true =>
          show StackInv []
          intro x hx
          exact absurd hx (List.not_mem_nil x)
      | cons top rest =>
        cases rooted with
        | false =>
          show StackInv (if top = ['.', '.'] then comp :: top :: rest
            else rest)
          by_cases h3 : top = ['.', '.']
          · rw [if_pos h3]
            intro x hx
            rcases List.mem_cons.mp hx with rfl | hx'
            · refine ⟨?_, hcomp⟩
              rw [h2]
              simp
            · exact hstack x hx'
          · rw [if_neg h3]
            intro x hx
            exact hstack x (List.mem_cons_of_mem top hx)
        | true =>
          show StackInv rest
          intro x hx
          exact hstack x (List.mem_cons_of_mem top hx)
    · rw [if_neg h2]
      intro x hx
      rcases List.mem_cons.mp hx with rfl | hx'
      · refine ⟨?_, hcomp⟩
        intro hnil
        exact h1 (Or.inl hnil)
      · exact hstack x hx'

theorem foldl_cleanStep_inv (rooted : Bool) (comps : List (List Char))
    (stack : List (List Char)) (hstack : StackInv stack)
    (hcomps : ∀ c ∈ comps, '/' ∉ c) :
    StackInv (comps.foldl (cleanStep rooted) stack) := by
  induction comps generalizing stack with
  | nil => exact hstack
  | cons c cs ih =>
    rw [List.foldl_cons]
    exact ih (cleanStep rooted stack c)
      (cleanStep_inv rooted stack c hstack
        (hcomps c (List.mem_cons_self c cs)))
      (fun c' hc' => hcomps c' (List.mem_cons_of_mem c hc'))

theorem cleanStack_inv (rooted : Bool) (p : List Char) :
    StackInv (cleanStack rooted (splitSep p)) :=
  foldl_cleanStep_inv rooted (splitSep p) []
    (fun x hx => absurd hx (List.not_mem_nil x))
    (fun c hc => mem_splitSep_no_sep p c hc)

theorem joinComps_props (l : List (List Char)) (hne : l ≠ [])
    (hinv : StackInv l) :
    joinComps l ≠ [] ∧ (joinComps l).getLast? ≠ some '/' := by
  induction l with
  | nil => exact absurd rfl hne
  | cons c cs ih =>
    cases cs with
    | nil =>
      have hc := hinv c (List.mem_cons_self c [])
      refine ⟨hc.1, ?_⟩
      intro hlast
      have hmem : '/' ∈ (joinComps [c]).getLast? := by
        rw [hlast]
        rfl
      exact hc.2 (List.mem_of_mem_getLast? hmem)
    | cons c' rest =>
      have hih := ih (by simp)
        (fun x hx => hinv x (List.mem_cons_of_mem c hx))
      have hJ : joinComps (c :: c' :: rest) =
          c ++ '/' :: joinComps (c' :: rest) := rfl
      constructor
      · rw [hJ]
        simp
      · rw [hJ]
        have hlast : (c ++ '/' :: joinComps (c' :: rest)).getLast? =
            ('/' :: joinComps (c' :: rest)).getLast? :=
          getLast?_append_right c _ (by simp)
        rw [hlast]
        have hlast2 : ('/' :: joinComps (c' :: rest)).getLast? =
            (joinComps (c' :: rest)).getLast? := by
          have : ('/' :: joinComps (c' :: rest)) =
              ['/'] ++ joinComps (c' :: rest) := rfl
          rw [this]
          exact getLast?_append_right ['/'] _ hih.1
        rw [hlast2]
        exact hih.2

theorem cleanL_ne_nil (p : List Char) : cleanL p ≠ [] := by
  unfold cleanL
  by_cases h1 : p = []
  · simp [h1]
  · rw [if_neg h1]
    by_cases h2 : isAbsL p = true
    · simp [h2]
    · rw [if_neg h2]
      by_cases h3 : (cleanStack false (splitSep p)).reverse = []
      · simp [h3]
      · rw [if_neg h3]
        exact (joinComps_props _ h3
          (fun x hx => cleanStack_inv false p x
            (List.mem_reverse.mp hx))).1

theorem cleanL_getLast_sep (p : List Char)
    (h : (cleanL p).getLast? = some '/') : cleanL p = ['/'] := by
  unfold cleanL at h ⊢
  by_cases h1 : p = []
  · rw [if_pos h1] at h
    simp at h
  · rw [if_neg h1] at h ⊢
    by_cases h2 : isAbsL p = true
    · rw [if_pos h2] at h ⊢
      cases h3 : (cleanStack true (splitSep p)).reverse with
      | nil => rfl
      | cons c cs =>
        exfalso
        rw [h3] at h
        have hprops := joinComps_props (c :: cs) (by simp)
          (fun x hx => cleanStack_inv true p x
            (List.mem_reverse.mp (h3 ▸ hx)))
        have : ('/' :: joinComps (c :: cs)).getLast? =
            (joinComps (c :: cs)).getLast? := by
          have heq : ('/' :: joinComps (c :: cs)) =
              ['/'] ++ joinComps (c :: cs) := rfl
          rw [heq]
          exact getLast?_append_right ['/'] _ hprops.1
        rw [this] at h
        exact hprops.2 h
    · rw [if_neg h2] at h ⊢
      by_cases h3 : (cleanStack false (splitSep p)).reverse = []
      · rw [if_pos h3] at h
        simp at h
      · rw [if_neg h3] at h
        exfalso
        have hprops := joinComps_props _ h3
          (fun x hx => cleanStack_inv false p x (List.mem_reverse.mp hx))
        exact hprops.2 h

theorem take_eq_iff_append (ps c : List Char) :
    (ps.length ≤ c.length ∧ c.take ps.length = ps) ↔
      ∃ t, c = ps ++ t := by
  constructor
  · rintro ⟨hlen, htake⟩
    refine ⟨c.drop ps.length, ?_⟩
    conv_lhs => rw [← List.take_append_drop ps.length c]
    rw [htake]
  · rintro ⟨t, rfl⟩
    constructor
    · simp
    · exact List.take_left ps t

/-- The guard of `safeJoinPath`, characterized: for a base whose cleaned
form is not the bare root `"/"`, `isSubPath` accepts the child exactly
when the cleaned child extends the cleaned base by a separator and a
nonempty remainder. -/
theorem isSubPathL_iff (parent child : List Char)
    (hp : cleanL parent ≠ ['/']) :
    isSubPathL parent child = true ↔
      ∃ rest, rest ≠ [] ∧
        cleanL child = cleanL parent ++ '/' :: rest := by
  unfold isSubPathL
  have hplast : (cleanL parent).getLast? ≠ some '/' := by
    intro hctr
    exact hp (cleanL_getLast_sep parent hctr)
  simp only []
  rw [if_neg hplast]
  rw [Bool.and_eq_true_iff, decide_eq_true_iff, decide_eq_true_iff,
    take_eq_iff_append]
  constructor
  · rintro ⟨t, ht⟩
    refine ⟨t, ?_, ?_⟩
    · rintro rfl
      rw [List.append_nil] at ht
      have hsep : (cleanL child).getLast? = some '/' := by
        rw [ht]
        rw [getLast?_append_right (cleanL parent) ['/'] (by simp)]
        rfl
      have hroot := cleanL_getLast_sep child hsep
      rw [hroot] at ht
      have hnil : cleanL parent = [] := by
        cases hcp : cleanL parent with
        | nil => rfl
        | cons a s =>
          rw [hcp] at ht
          have hlen := congrArg List.length ht
          simp at hlen
      exact cleanL_ne_nil parent hnil
    · rw [ht, List.append_assoc]
      rfl
  · rintro ⟨rest, hne, hrest⟩
    refine ⟨rest, ?_⟩
    rw [hrest, List.append_assoc]
    rfl

/-- C2 counterexample: `safeJoinPath "/base" "."` — the candidate is not
absolute and the cleaned join equals the base (`"/base"`), so under the
claim's "descendant of (or equal to)" it should succeed; the code rejects
it with a path-traversal error because `isSubPath` demands a strict
extension of the base. -/
theorem safeJoinPath_dot_counterexample :
    safeJoinPath "/base" "." = Except.error PathErr.pathTraversal ∧
    isAbs (cleanPath ".") = false ∧
    cleanPath (joinPath "/base" (cleanPath ".")) = "/base" := by
  refine ⟨rfl, rfl, rfl⟩

/-- C2 (amended): for a base whose cleaned form is not the bare root,
`safeJoinPath` succeeds — returning the cleaned join of the base with the
cleaned candidate — exactly when the candidate (after cleaning) is not
absolute and the resolved path is a strict descendant of the base
(equality with the base is rejected); in particular
`safeJoinPath "/base" "../etc/passwd"` fails with a path-traversal error
and `safeJoinPath "/base" "a/b/../c"` returns `"/base/a/c"`.  The model
is a pure computation on strings, mirroring the source's purely lexical
treatment. -/
theorem safeJoinPath_characterization (base rel : String)
    (hb : cleanPath base ≠ "/") :
    (∀ out, safeJoinPath base rel = Except.ok out →
      out = cleanPath (joinPath base (cleanPath rel))) ∧
    (safeJoinPath base rel =
        Except.ok (cleanPath (joinPath base (cleanPath rel))) ↔
      isAbs (cleanPath rel) = false ∧
      IsStrictDescendantOf (cleanPath (joinPath base (cleanPath rel)))
        base) ∧
    safeJoinPath "/base" "../etc/passwd" =
      Except.error PathErr.pathTraversal ∧
    safeJoinPath "/base" "a/b/../c" = Except.ok "/base/a/c" := by
  have hbL : cleanL base.data ≠ ['/'] := by
    intro h
    apply hb
    show String.mk (cleanL base.data) = "/"
    rw [h]
  have hiff := isSubPathL_iff base.data
    (cleanL (joinL base.data (cleanL rel.data))) hbL
  refine ⟨?_, ?_, rfl, rfl⟩
  · intro out heq
    simp only [safeJoinPath, safeJoinPathL] at heq
    by_cases habs : isAbsL (cleanL rel.data) = true
    · rw [if_pos habs] at heq
      simp [Except.map] at heq
    · rw [if_neg habs] at heq
      by_cases hsub : isSubPathL base.data
          (cleanL (joinL base.data (cleanL rel.data))) = true
      · rw [if_pos hsub] at heq
        simp only [Except.map] at heq
        exact (Except.ok.inj heq).symm
      · rw [if_neg hsub] at heq
        simp [Except.map] at heq
  · constructor
    · intro heq
      simp only [safeJoinPath, safeJoinPathL] at heq
      by_cases habs : isAbsL (cleanL rel.data) = true
      · rw [if_pos habs] at heq
        simp [Except.map] at heq
      · rw [if_neg habs] at heq
        by_cases hsub : isSubPathL base.data
            (cleanL (joinL base.data (cleanL rel.data))) = true
        · refine ⟨?_, ?_⟩
          · cases hv : isAbsL (cleanL rel.data) with
            | false => exact hv
            | true => exact absurd hv habs
          · exact hiff.mp hsub
        · rw [if_neg hsub] at heq
          simp [Except.map] at heq
    · rintro ⟨habs, hdesc⟩
      have hsub : isSubPathL base.data
          (cleanL (joinL base.data (cleanL rel.data))) = true :=
        hiff.mpr hdesc
      have hnabs : ¬ isAbsL (cleanL rel.data) = true := by
        intro hctr
        have habs' : isAbsL (cleanL rel.data) = false := habs
        rw [habs'] at hctr
        exact Bool.false_ne_true hctr
      simp only [safeJoinPath, safeJoinPathL]
      rw [if_neg hnabs, if_pos hsub]
      rfl

/-- Witness for the amended C2: the spec's two examples obtained through
the characterization theorem at base `"/base"`. -/
theorem safeJoinPath_characterization_witness :
    safeJoinPath "/base" "a/b/../c" = Except.ok "/base/a/c" ∧
    safeJoinPath "/base" "../etc/passwd" =
      Except.error PathErr.pathTraversal := by
  have h := safeJoinPath_characterization "/base" "a/b/../c" (by decide)
  exact ⟨h.2.2.2, h.2.2.1⟩

/-! ## Single-flight base creation (getOrCreateBase, manager.go)

`getOrCreateBase` is exercised by concurrent `CreateEnvironment` calls.
The goroutines become explicit threads over a small-step interleaving
semantics; each step is one lock-protected section of the source: the
read-locked first lookup, acquiring `baseMu`, the read-locked
double-check, the build (no locks held but `baseMu`), the write-locked
store, releasing `baseMu`.  The registry-wide lock `mu` is held only
within single atomic steps (the source holds it only around individual
map reads/writes, never across the build), so steps of other threads are
interleavable at every point; unrelated registry operations (e.g.
`GetEnvironment`) appear as reader threads taking one read-locked step.
A scheduler — an arbitrary list of thread indices — drives the system;
scheduling a blocked or finished thread leaves the state unchanged. -/

inductive TPc where
  | start
  | lockBase
  | check2
  | build
  | store (v : Nat)
  | unlockBase (v : Nat)
  | done (v : Nat)
  | reader
  | readerDone
  deriving DecidableEq, Repr

structure Thread where
  ver : String
  pc : TPc
  deriving DecidableEq, Repr

/-- Global state: the threads, the `baseEnvironments` map (version →
identity of the built base), the `baseMu` holder, a fresh-identity
counter for builds, and the log of executed builds (the spec's build
counter). -/
structure Sys where
  threads : List Thread
  baseEnvs : List (String × Nat)
  baseMuHolder : Option Nat
  nextBase : Nat
  buildLog : List String
  deriving DecidableEq, Repr

/-- One step of thread `i` (currently `t`), following `getOrCreateBase`. -/
def stepThread (s : Sys) (i : Nat) (t : Thread) : Sys :=
  match t.pc with
  | TPc.start =>
    match alookup t.ver s.baseEnvs with
    | some v =>
      { s with threads := s.threads.set i { t with pc := TPc.done v } }
    | none =>
      { s with threads := s.threads.set i { t with pc := TPc.lockBase } }
  | TPc.lockBase =>
    match s.baseMuHolder with
    | some _ => s
    | none =>
      { s with
          baseMuHolder := some i
          threads := s.threads.set i { t with pc := TPc.check2 } }
  | TPc.check2 =>
    match alookup t.ver s.baseEnvs with
    | some v =>
      { s with threads := s.threads.set i { t with pc := TPc.unlockBase v } }
    | none =>
      { s with threads := s.threads.set i { t with pc := TPc.build } }
  | TPc.build =>
    { s with
        nextBase := s.nextBase + 1
        buildLog := s.buildLog ++ [t.ver]
        threads := s.threads.set i { t with pc := TPc.store s.nextBase } }
  | TPc.store v =>
    { s with
        baseEnvs := s.baseEnvs ++ [(t.ver, v)]
        threads := s.threads.set i { t with pc := TPc.unlockBase v } }
  | TPc.unlockBase v =>
    { s with
        baseMuHolder := none
        threads := s.threads.set i { t with pc := TPc.done v } }
  | TPc.done _ => s
  | TPc.reader =>
    { s with threads := s.threads.set i { t with pc := TPc.readerDone } }
  | TPc.readerDone => s

def step (s : Sys) (i : Nat) : Sys :=
  match s.threads[i]? with
  | none => s
  | some t => stepThread s i t

def run (s : Sys) (sched : List Nat) : Sys := sched.foldl step s

/-- Initial states: every thread is a creator about to call
`getOrCreateBase`, or a reader; no base built, no lock held, no builds
logged. -/
def ValidInit (s : Sys) : Prop :=
  (∀ t ∈ s.threads, t.pc = TPc.start ∨ t.pc = TPc.reader) ∧
  s.baseEnvs = [] ∧ s.baseMuHolder = none ∧ s.buildLog = []

/-- Program counters at which a thread holds `baseMu`. -/
def inCrit : TPc → Bool
  | TPc.check2 => true
  | TPc.build => true
  | TPc.store _ => true
  | TPc.unlockBase _ => true
  | _ => false

/-- Thread `i` is between its build and its store for version `v`. -/
def StoreForT (threads : List Thread) (v : String) (i : Nat) : Prop :=
  ∃ t x, threads[i]? = some t ∧ t.ver = v ∧ t.pc = TPc.store x

theorem alookup_append (k : String) (l l' : List (String × α)) :
    alookup k (l ++ l') =
      match alookup k l with
      | some v => some v
      | none => alookup k l' := by
  induction l with
  | nil => rfl
  | cons hd tl ih =>
    by_cases hk : hd.1 = k
    · simp [alookup, hk]
    · simp [alookup, hk, ih]

theorem alookup_append_some (k : String) (l l' : List (String × α))
    (x : α) (h : alookup k l = some x) :
    alookup k (l ++ l') = some x := by
  rw [alookup_append, h]

theorem alookup_append_none (k : String) (l l' : List (String × α))
    (h : alookup k l = none) :
    alookup k (l ++ l') = alookup k l' := by
  rw [alookup_append, h]

theorem alookup_single_self (k : String) (x : α) :
    alookup k [(k, x)] = some x := by
  simp [alookup]

theorem alookup_single_ne (k k' : String) (x : α) (h : k' ≠ k) :
    alookup k [(k', x)] = none := by
  simp [alookup, h]

theorem lt_length_of_getElem?_eq_some {l : List Thread} {i : Nat}
    {t : Thread} (h : l[i]? = some t) : i < l.length := by
  by_cases hlt : i < l.length
  · exact hlt
  · rw [List.getElem?_eq_none (by omega)] at h
    exact Option.noConfusion h

theorem threads_set_cases {l : List Thread} {i j : Nat} {x t : Thread}
    (hi : i < l.length) (h : (l.set i x)[j]? = some t) :
    (j = i ∧ t = x) ∨ (j ≠ i ∧ l[j]? = some t) := by
  by_cases hji : j = i
  · subst hji
    rw [List.getElem?_set_self hi] at h
    exact Or.inl ⟨rfl, (Option.some.inj h).symm⟩
  · rw [List.getElem?_set_ne (fun he => hji he.symm)] at h
    exact Or.inr ⟨hji, h⟩

theorem storeForT_set_iff {l : List Thread} {i : Nat} {t : Thread}
    (t' : Thread) (hti : l[i]? = some t) (v : String)
    (hold : ∀ x, t.pc = TPc.store x → t.ver ≠ v)
    (hnew : ∀ x, t'.pc = TPc.store x → t'.ver ≠ v) :
    ∀ j, StoreForT (l.set i t') v j ↔ StoreForT l v j := by
  intro j
  have hi := lt_length_of_getElem?_eq_some hti
  constructor
  · rintro ⟨u, x, hj, hv, hpc⟩
    rcases threads_set_cases hi hj with ⟨rfl, rfl⟩ | ⟨hne, hj'⟩
    · exact absurd hv (hnew x hpc)
    · exact ⟨u, x, hj', hv, hpc⟩
  · rintro ⟨u, x, hj, hv, hpc⟩
    by_cases hji : j = i
    · subst hji
      rw [hti] at hj
      obtain rfl := Option.some.inj hj
      exact absurd hv (hold x hpc)
    · refine ⟨u, x, ?_, hv, hpc⟩
      rw [List.getElem?_set_ne (fun he => hji he.symm)]
      exact hj

/-- Mutual exclusion: a thread in the critical section is the `baseMu`
holder. -/
def CritHolderP (threads : List Thread) (holder : Option Nat) : Prop :=
  ∀ (i : Nat) (t : Thread), threads[i]? = some t → inCrit t.pc = true →
    holder = some i

/-- Accounting: for each version, either nothing happened, or exactly one
build was logged and its result is stored, or exactly one build was
logged and its thread is between build and store. -/
def AccountP (threads : List Thread) (baseEnvs : List (String × Nat))
    (buildLog : List String) : Prop :=
  ∀ v,
    (buildLog.count v = 0 ∧ alookup v baseEnvs = none ∧
      ∀ j, ¬ StoreForT threads v j) ∨
    (buildLog.count v = 1 ∧ (∃ x, alookup v baseEnvs = some x) ∧
      ∀ j, ¬ StoreForT threads v j) ∨
    (buildLog.count v = 1 ∧ alookup v baseEnvs = none ∧
      ∃ j, StoreForT threads v j)

/-- A thread about to build passed the double-check: its version has no
stored base and no logged build. -/
def BuildFreshP (threads : List Thread) (baseEnvs : List (String × Nat))
    (buildLog : List String) : Prop :=
  ∀ (i : Nat) (t : Thread), threads[i]? = some t → t.pc = TPc.build →
    buildLog.count t.ver = 0 ∧ alookup t.ver baseEnvs = none

/-- Every value a creator observed (or is about to return) is the stored
base of its version. -/
def ObservedP (threads : List Thread)
    (baseEnvs : List (String × Nat)) : Prop :=
  ∀ (i : Nat) (t : Thread) (x : Nat), threads[i]? = some t →
    t.pc = TPc.done x ∨ t.pc = TPc.unlockBase x →
    alookup t.ver baseEnvs = some x

def SysInv (s : Sys) : Prop :=
  CritHolderP s.threads s.baseMuHolder ∧
  AccountP s.threads s.baseEnvs s.buildLog ∧
  BuildFreshP s.threads s.baseEnvs s.buildLog ∧
  ObservedP s.threads s.baseEnvs

theorem critHolderP_set {l : List Thread} {holder : Option Nat} {i : Nat}
    {t : Thread} (t' : Thread) (hti : l[i]? = some t)
    (hnew : inCrit t'.pc = true → holder = some i)
    (h : CritHolderP l holder) :
    CritHolderP (l.set i t') holder := by
  intro j u hj hc
  rcases threads_set_cases (lt_length_of_getElem?_eq_some hti) hj with
    ⟨rfl, rfl⟩ | ⟨hne, hj'⟩
  · exact hnew hc
  · exact h j u hj' hc

theorem accountP_set {l : List Thread}
    {baseEnvs : List (String × Nat)} {buildLog : List String} {i : Nat}
    {t : Thread} (t' : Thread) (hti : l[i]? = some t)
    (hold : ∀ x, t.pc ≠ TPc.store x) (hnew : ∀ x, t'.pc ≠ TPc.store x)
    (h : AccountP l baseEnvs buildLog) :
    AccountP (l.set i t') baseEnvs buildLog := by
  intro v
  have hiff := storeForT_set_iff t' hti v (fun x hx => absurd hx (hold x))
    (fun x hx => absurd hx (hnew x))
  rcases h v with ⟨h1, h2, h3⟩ | ⟨h1, h2, h3⟩ | ⟨h1, h2, j, h3⟩
  · exact Or.inl ⟨h1, h2, fun j hj => h3 j ((hiff j).mp hj)⟩
  · exact Or.inr (Or.inl ⟨h1, h2, fun j hj => h3 j ((hiff j).mp hj)⟩)
  · exact Or.inr (Or.inr ⟨h1, h2, j, (hiff j).mpr h3⟩)

theorem buildFreshP_set {l : List Thread}
    {baseEnvs : List (String × Nat)} {buildLog : List String} {i : Nat}
    {t : Thread} (t' : Thread) (hti : l[i]? = some t)
    (hnew : t'.pc = TPc.build →
      buildLog.count t'.ver = 0 ∧ alookup t'.ver baseEnvs = none)
    (h : BuildFreshP l baseEnvs buildLog) :
    BuildFreshP (l.set i t') baseEnvs buildLog := by
  intro j u hj hb
  rcases threads_set_cases (lt_length_of_getElem?_eq_some hti) hj with
    ⟨rfl, rfl⟩ | ⟨hne, hj'⟩
  · exact hnew hb
  · exact h j u hj' hb

theorem observedP_set {l : List Thread}
    {baseEnvs : List (String × Nat)} {i : Nat}
    {t : Thread} (t' : Thread) (hti : l[i]? = some t)
    (hnew : ∀ x, t'.pc = TPc.done x ∨ t'.pc = TPc.unlockBase x →
      alookup t'.ver baseEnvs = some x)
    (h : ObservedP l baseEnvs) :
    ObservedP (l.set i t') baseEnvs := by
  intro j u x hj hor
  rcases threads_set_cases (lt_length_of_getElem?_eq_some hti) hj with
    ⟨rfl, rfl⟩ | ⟨hne, hj'⟩
  · exact hnew x hor
  · exact h j u x hj' hor

theorem sysInv_init (s : Sys) (h : ValidInit s) : SysInv s := by
  obtain ⟨hpcs, henv, hmu, hlog⟩ := h
  refine ⟨?_, ?_, ?_, ?_⟩
  · intro i t hti hcrit
    rcases hpcs t (List.getElem?_mem hti) with h1 | h1 <;>
      rw [h1] at hcrit <;> simp [inCrit] at hcrit
  · intro v
    left
    rw [hlog, henv]
    refine ⟨List.count_nil v, rfl, ?_⟩
    rintro j ⟨t, x, hj, hv, hpc⟩
    rcases hpcs t (List.getElem?_mem hj) with h1 | h1 <;>
      rw [h1] at hpc <;> exact TPc.noConfusion hpc
  · intro i t hti hb
    rcases hpcs t (List.getElem?_mem hti) with h1 | h1 <;>
      rw [h1] at hb <;> exact TPc.noConfusion hb
  · intro i t x hti hor
    rcases hor with h1 | h1 <;>
      rcases hpcs t (List.getElem?_mem hti) with h2 | h2 <;>
        rw [h2] at h1 <;> exact TPc.noConfusion h1

theorem sysInv_step (s : Sys) (i : Nat) (h : SysInv s) :
    SysInv (step s i) := by
  obtain ⟨hcrit, hacc, hfresh, hobs⟩ := h
  unfold step
  cases hti : s.threads[i]? with
  | none => exact ⟨hcrit, hacc, hfresh, hobs⟩
  | some t =>
    obtain ⟨ver, pc⟩ := t
    have hlen := lt_length_of_getElem?_eq_some hti
    cases pc with
    | start =>
      unfold stepThread
      simp only []
      cases hl : alookup ver s.baseEnvs with
      | some v =>
        refine ⟨?_, ?_, ?_, ?_⟩
        · exact critHolderP_set _ hti (fun hc => by simp [inCrit] at hc)
            hcrit
        · exact accountP_set _ hti (fun x hx => TPc.noConfusion hx)
            (fun x hx => TPc.noConfusion hx) hacc
        · exact buildFreshP_set _ hti (fun hb => TPc.noConfusion hb) hfresh
        · refine observedP_set _ hti ?_ hobs
          intro x hor
          rcases hor with hd | hu
          · injection hd with hv
            rw [← hv]
            exact hl
          · exact TPc.noConfusion hu
      | none =>
        refine ⟨?_, ?_, ?_, ?_⟩
        · exact critHolderP_set _ hti (fun hc => by simp [inCrit] at hc)
            hcrit
        · exact accountP_set _ hti (fun x hx => TPc.noConfusion hx)
            (fun x hx => TPc.noConfusion hx) hacc
        · exact buildFreshP_set _ hti (fun hb => TPc.noConfusion hb) hfresh
        · refine observedP_set _ hti ?_ hobs
          intro x hor
          rcases hor with hd | hu
          · exact TPc.noConfusion hd
          · exact TPc.noConfusion hu
    | lockBase =>
      unfold stepThread
      simp only []
      cases hmu : s.baseMuHolder with
      | some k => exact ⟨hcrit, hacc, hfresh, hobs⟩
      | none =>
        refine ⟨?_, ?_, ?_, ?_⟩
        · intro j u hj hc
          rcases threads_set_cases hlen hj with ⟨rfl, rfl⟩ | ⟨hne, hj'⟩
          · rfl
          · have h1 := hcrit j u hj' hc
            rw [hmu] at h1
            exact Option.noConfusion h1
        · exact accountP_set _ hti (fun x hx => TPc.noConfusion hx)
            (fun x hx => TPc.noConfusion hx) hacc
        · exact buildFreshP_set _ hti (fun hb => TPc.noConfusion hb) hfresh
        · refine observedP_set _ hti ?_ hobs
          intro x hor
          rcases hor with hd | hu
          · exact TPc.noConfusion hd
          · exact TPc.noConfusion hu
    | check2 =>
      unfold stepThread
      simp only []
      cases hl : alookup ver s.baseEnvs with
      | some v =>
        refine ⟨?_, ?_, ?_, ?_⟩
        · exact critHolderP_set _ hti
            (fun _ => hcrit i ⟨ver, TPc.check2⟩ hti rfl) hcrit
        · exact accountP_set _ hti (fun x hx => TPc.noConfusion hx)
            (fun x hx => TPc.noConfusion hx) hacc
        · exact buildFreshP_set _ hti (fun hb => TPc.noConfusion hb) hfresh
        · refine observedP_set _ hti ?_ hobs
          intro x hor
          rcases hor with hd | hu
          · exact TPc.noConfusion hd
          · injection hu with hv
            rw [← hv]
            exact hl
      | none =>
        refine ⟨?_, ?_, ?_, ?_⟩
        · exact critHolderP_set _ hti
            (fun _ => hcrit i ⟨ver, TPc.check2⟩ hti rfl) hcrit
        · exact accountP_set _ hti (fun x hx => TPc.noConfusion hx)
            (fun x hx => TPc.noConfusion hx) hacc
        · refine buildFreshP_set _ hti ?_ hfresh
          intro _
          refine ⟨?_, hl⟩
          rcases hacc ver with ⟨h1, h2, h3⟩ | ⟨h1, ⟨x, h2⟩, h3⟩ |
            ⟨h1, h2, j, hsf⟩
          · exact h1
          · rw [hl] at h2
            exact Option.noConfusion h2
          · obtain ⟨u, x, hj, hv, hpc⟩ := hsf
            have hu1 := hcrit j u hj (by rw [hpc]; rfl)
            have hu2 := hcrit i ⟨ver, TPc.check2⟩ hti rfl
            rw [hu1] at hu2
            obtain rfl := Option.some.inj hu2
            rw [hti] at hj
            obtain rfl := Option.some.inj hj
            exact TPc.noConfusion hpc
        · refine observedP_set _ hti ?_ hobs
          intro x hor
          rcases hor with hd | hu
          · exact TPc.noConfusion hd
          · exact TPc.noConfusion hu
    | build =>
      unfold stepThread
      simp only []
      obtain ⟨hcount, hlook⟩ := hfresh i ⟨ver, TPc.build⟩ hti rfl
      have hhold := hcrit i ⟨ver, TPc.build⟩ hti rfl
      refine ⟨?_, ?_, ?_, ?_⟩
      · exact critHolderP_set _ hti (fun _ => hhold) hcrit
      · intro v
        by_cases hv : v = ver
        · subst hv
          refine Or.inr (Or.inr ⟨?_, hlook, ?_⟩)
          · rw [List.count_append, hcount, List.count_singleton]
            simp
          · exact ⟨i, ⟨⟨v, TPc.store s.nextBase⟩, s.nextBase,
              List.getElem?_set_self hlen, rfl, rfl⟩⟩
        · have hvv : ¬ ver = v := fun he => hv he.symm
          have hiff := storeForT_set_iff ⟨ver, TPc.store s.nextBase⟩ hti v
            (fun x hx => TPc.noConfusion hx)
            (by intro x hx hveq; exact hv hveq.symm)
          have hcnt : (s.buildLog ++ [ver]).count v = s.buildLog.count v := by
            rw [List.count_append, List.count_singleton]
            simp [hvv]
          rcases hacc v with ⟨h1, h2, h3⟩ | ⟨h1, h2, h3⟩ | ⟨h1, h2, j, h3⟩
          · exact Or.inl ⟨by rw [hcnt]; exact h1, h2,
              fun j hj => h3 j ((hiff j).mp hj)⟩
          · exact Or.inr (Or.inl ⟨by rw [hcnt]; exact h1, h2,
              fun j hj => h3 j ((hiff j).mp hj)⟩)
          · exact Or.inr (Or.inr ⟨by rw [hcnt]; exact h1, h2, j,
              (hiff j).mpr h3⟩)
      · intro j u hj hb
        rcases threads_set_cases hlen hj with ⟨rfl, rfl⟩ | ⟨hne, hj'⟩
        · exact TPc.noConfusion hb
        · have h1 := hcrit j u hj' (by rw [hb]; rfl)
          rw [hhold] at h1
          exact absurd (Option.some.inj h1).symm hne
      · refine observedP_set _ hti ?_ hobs
        intro x hor
        rcases hor with hd | hu
        · exact TPc.noConfusion hd
        · exact TPc.noConfusion hu
    | store x0 =>
      unfold stepThread
      simp only []
      have hhold := hcrit i ⟨ver, TPc.store x0⟩ hti rfl
      have hsfi : StoreForT s.threads ver i :=
        ⟨⟨ver, TPc.store x0⟩, x0, hti, rfl, rfl⟩
      have hver3 : s.buildLog.count ver = 1 ∧
          alookup ver s.baseEnvs = none := by
        rcases hacc ver with ⟨h1, h2, h3⟩ | ⟨h1, h2, h3⟩ | ⟨h1, h2, h3⟩
        · exact absurd hsfi (h3 i)
        · exact absurd hsfi (h3 i)
        · exact ⟨h1, h2⟩
      refine ⟨?_, ?_, ?_, ?_⟩
      · exact critHolderP_set _ hti (fun _ => hhold) hcrit
      · intro v
        by_cases hv : v = ver
        · subst hv
          refine Or.inr (Or.inl ⟨hver3.1, ⟨x0, ?_⟩, ?_⟩)
          · rw [alookup_append_none _ _ _ hver3.2]
            exact alookup_single_self _ _
          · rintro j ⟨u, y, hj, huv, hupc⟩
            rcases threads_set_cases hlen hj with ⟨rfl, rfl⟩ | ⟨hne, hj'⟩
            · exact TPc.noConfusion hupc
            · have h1 := hcrit j u hj' (by rw [hupc]; rfl)
              rw [hhold] at h1
              exact hne (Option.some.inj h1).symm
        · have henv' : alookup v (s.baseEnvs ++ [(ver, x0)]) =
              alookup v s.baseEnvs := by
            rw [alookup_append]
            cases hl : alookup v s.baseEnvs with
            | some y => rfl
            | none => exact alookup_single_ne v ver x0 (fun he => hv he.symm)
          have hiff := storeForT_set_iff ⟨ver, TPc.unlockBase x0⟩ hti v
            (by intro y hy hveq; exact hv hveq.symm)
            (fun y hy => TPc.noConfusion hy)
          rcases hacc v with ⟨h1, h2, h3⟩ | ⟨h1, ⟨y, h2⟩, h3⟩ |
            ⟨h1, h2, j, h3⟩
          · exact Or.inl ⟨h1, by rw [henv']; exact h2,
              fun j hj => h3 j ((hiff j).mp hj)⟩
          · exact Or.inr (Or.inl ⟨h1, ⟨y, by rw [henv']; exact h2⟩,
              fun j hj => h3 j ((hiff j).mp hj)⟩)
          · exact Or.inr (Or.inr ⟨h1, by rw [henv']; exact h2, j,
              (hiff j).mpr h3⟩)
      · intro j u hj hb
        rcases threads_set_cases hlen hj with ⟨rfl, rfl⟩ | ⟨hne, hj'⟩
        · exact TPc.noConfusion hb
        · have h1 := hcrit j u hj' (by rw [hb]; rfl)
          rw [hhold] at h1
          exact absurd (Option.some.inj h1).symm hne
      · intro j u y hj hor
        rcases threads_set_cases hlen hj with ⟨rfl, rfl⟩ | ⟨hne, hj'⟩
        · rcases hor with hd | hu
          · exact TPc.noConfusion hd
          · injection hu with hy
            rw [← hy, alookup_append_none _ _ _ hver3.2]
            exact alookup_single_self _ _
        · exact alookup_append_some _ _ _ _ (hobs j u y hj' hor)
    | unlockBase v =>
      unfold stepThread
      simp only []
      have hhold := hcrit i ⟨ver, TPc.unlockBase v⟩ hti rfl
      refine ⟨?_, ?_, ?_, ?_⟩
      · intro j u hj hc
        rcases threads_set_cases hlen hj with ⟨rfl, rfl⟩ | ⟨hne, hj'⟩
        · simp [inCrit] at hc
        · have h1 := hcrit j u hj' hc
          rw [hhold] at h1
          exact absurd (Option.some.inj h1).symm hne
      · exact accountP_set _ hti (fun x hx => TPc.noConfusion hx)
          (fun x hx => TPc.noConfusion hx) hacc
      · exact buildFreshP_set _ hti (fun hb => TPc.noConfusion hb) hfresh
      · refine observedP_set _ hti ?_ hobs
        intro y hor
        rcases hor with hd | hu
        · injection hd with hy
          rw [← hy]
          exact hobs i ⟨ver, TPc.unlockBase v⟩ v hti (Or.inr rfl)
        · exact TPc.noConfusion hu
    | done v => exact ⟨hcrit, hacc, hfresh, hobs⟩
    | reader =>
      unfold stepThread
      simp only []
      refine ⟨?_, ?_, ?_, ?_⟩
      · exact critHolderP_set _ hti (fun hc => by simp [inCrit] at hc)
          hcrit
      · exact accountP_set _ hti (fun x hx => TPc.noConfusion hx)
          (fun x hx => TPc.noConfusion hx) hacc
      · exact buildFreshP_set _ hti (fun hb => TPc.noConfusion hb) hfresh
      · refine observedP_set _ hti ?_ hobs
        intro x hor
        rcases hor with hd | hu
        · exact TPc.noConfusion hd
        · exact TPc.noConfusion hu
    | readerDone => exact ⟨hcrit, hacc, hfresh, hobs⟩

theorem sysInv_run (s : Sys) (sched : List Nat) (h : SysInv s) :
    SysInv (run s sched) := by
  induction sched generalizing s with
  | nil => exact h
  | cons i rest ih => exact ih (step s i) (sysInv_step s i h)

/-- C6: in every interleaving of concurrent `CreateEnvironment` callers,
each version's SharedBase build executes at most once — and exactly once
as soon as one caller for it finished — all callers for a version observe
the same built base (the stored one); a thread performing the build holds
`baseMu` (the dedicated base-creation lock, distinct from the
registry-wide `mu`, which the source takes only inside single atomic
sections and never across the build); and an unrelated registry operation
(reader thread) completes in one step at any point, even while a build is
in flight — it is never blocked by the build. -/
theorem getOrCreateBase_single_flight (s0 : Sys) (sched : List Nat)
    (hinit : ValidInit s0) :
    (∀ v, (run s0 sched).buildLog.count v ≤ 1) ∧
    (∀ (i : Nat) (t : Thread) (x : Nat),
      (run s0 sched).threads[i]? = some t → t.pc = TPc.done x →
      (run s0 sched).buildLog.count t.ver = 1 ∧
      alookup t.ver (run s0 sched).baseEnvs = some x) ∧
    (∀ (i j : Nat) (ti tj : Thread) (x y : Nat),
      (run s0 sched).threads[i]? = some ti →
      (run s0 sched).threads[j]? = some tj → ti.ver = tj.ver →
      ti.pc = TPc.done x → tj.pc = TPc.done y → x = y) ∧
    (∀ (i : Nat) (t : Thread),
      (run s0 sched).threads[i]? = some t → t.pc = TPc.build →
      (run s0 sched).baseMuHolder = some i) ∧
    (∀ (s : Sys) (i : Nat) (t : Thread), s.threads[i]? = some t →
      t.pc = TPc.reader →
      (step s i).threads[i]? = some { t with pc := TPc.readerDone }) := by
  obtain ⟨hcrit, hacc, hfresh, hobs⟩ :=
    sysInv_run s0 sched (sysInv_init s0 hinit)
  refine ⟨?_, ?_, ?_, ?_, ?_⟩
  · intro v
    rcases hacc v with ⟨h1, -, -⟩ | ⟨h1, -, -⟩ | ⟨h1, -, -⟩ <;> omega
  · intro i t x hti hpc
    have hl := hobs i t x hti (Or.inl hpc)
    refine ⟨?_, hl⟩
    rcases hacc t.ver with ⟨-, h2, -⟩ | ⟨h1, -, -⟩ | ⟨-, h2, -⟩
    · rw [hl] at h2
      exact Option.noConfusion h2
    · exact h1
    · rw [hl] at h2
      exact Option.noConfusion h2
  · intro i j ti tj x y hti htj hver hpx hpy
    have h1 := hobs i ti x hti (Or.inl hpx)
    have h2 := hobs j tj y htj (Or.inl hpy)
    rw [hver] at h1
    rw [h1] at h2
    exact Option.some.inj h2
  · intro i t hti hpc
    exact hcrit i t hti (by rw [hpc]; rfl)
  · intro s i t hti hpc
    obtain ⟨ver, pc⟩ := t
    have hpc' : pc = TPc.reader := hpc
    subst hpc'
    unfold step
    rw [hti]
    show (stepThread s i ⟨ver, TPc.reader⟩).threads[i]? = _
    unfold stepThread
    simp only []
    exact List.getElem?_set_self (lt_length_of_getElem?_eq_some hti)

/-- Two creators for Python version `"3.11"` racing with one unrelated
reader. -/
def exampleSys : Sys :=
  ⟨[⟨"3.11", TPc.start⟩, ⟨"3.11", TPc.start⟩, ⟨"other", TPc.reader⟩],
    [], none, 0, []⟩

/-- A schedule interleaving the two creators (the second blocks on
`baseMu` while the first builds, and the reader runs mid-build). -/
def exampleSched : List Nat := [0, 1, 0, 1, 0, 0, 2, 0, 0, 1, 1, 1]

/-- Witness for C6: on the concrete race both creators finish with the
same base identity `0`, the reader finished mid-build, and the theorem
yields that the build for `"3.11"` executed exactly once. -/
theorem getOrCreateBase_single_flight_witness :
    (run exampleSys exampleSched).buildLog.count "3.11" = 1 ∧
    (run exampleSys exampleSched).threads[0]? =
      some ⟨"3.11", TPc.done 0⟩ ∧
    (run exampleSys exampleSched).threads[1]? =
      some ⟨"3.11", TPc.done 0⟩ ∧
    (run exampleSys exampleSched).threads[2]? =
      some ⟨"other", TPc.readerDone⟩ := by
  have h := getOrCreateBase_single_flight exampleSys exampleSched
    (by refine ⟨?_, rfl, rfl, rfl⟩; decide)
  exact ⟨(h.2.1 0 ⟨"3.11", TPc.done 0⟩ 0 rfl rfl).1, rfl, rfl, rfl⟩

end JumpbootMCP
